import Mathlib

/-!
Verification development for the Felix reconciliation core
(`calico/felix/ipsets.py`, `calico/felix/endpoint.py`, `calico/felix/fetcd.py`).

The Python source is shallowly embedded: each actor's mutable fields become a
Lean structure, each handler becomes a pure function from state to state
(paired with the list of externally visible actions it emits, standing for the
messages/system calls the Python code issues).  Since actor messaging is FIFO
per actor, the state reached at quiescence is obtained by applying handlers in
message order, which is what the step functions below compute.
-/

namespace Calico

/-- `Modelled from the spec` (futils.net_to_ip is outside the provided
sources): maps a CIDR string such as "10.0.0.1/32" to its IP part
"10.0.0.1" (the part before the first "/"); a bare address is returned
unchanged. -/
def netToIp (net : String) : String :=
  String.mk (net.data.takeWhile (fun c => c ≠ '/'))

/-- IP family, `futils.IPV4` / `futils.IPV6`. -/
inductive IpType where
  | v4
  | v6
deriving DecidableEq, Repr

/-- `FELIX_PFX = "felix-"` (ipsets.py line 33). -/
def FELIX_PFX : String := "felix-"

/-- `IPSET_PREFIX` (ipsets.py line 34). -/
def IPSET_PREFIX : IpType → String
  | .v4 => FELIX_PFX ++ "v4-"
  | .v6 => FELIX_PFX ++ "v6-"

/-- `IPSET_TMP_PREFIX` (ipsets.py line 35). -/
def IPSET_TMP_PREFIX : IpType → String
  | .v4 => FELIX_PFX ++ "tmp-v4-"
  | .v6 => FELIX_PFX ++ "tmp-v6-"

/-- `tag_to_ipset_name` (ipsets.py lines 384-392). -/
def tag_to_ipset_name (ip_type : IpType) (tag : String) (tmp : Bool := false) :
    String :=
  if ¬tmp then IPSET_PREFIX ip_type ++ tag
  else IPSET_TMP_PREFIX ip_type ++ tag

/-! ## ActiveIpset (ipsets.py lines 257-381)

The actor's mutable fields.  `members` is `intended_members` in the spec's
terms; `programmed` is `programmed_members` (`None` before the first
successful sync); the kernel-facing calls become `IpsetAction` values. -/

structure ActiveIpset where
  tag : String
  ipType : IpType
  members : Finset String
  programmed : Option (Finset String)
  notifiedReady : Bool
  stopped : Bool
deriving DecidableEq

namespace ActiveIpset

/-- `self.name = tag_to_ipset_name(ip_type, tag)` (ipsets.py line 270). -/
def name (s : ActiveIpset) : String := tag_to_ipset_name s.ipType s.tag

/-- `self.tmpname = tag_to_ipset_name(ip_type, tag, tmp=True)` (line 271). -/
def tmpname (s : ActiveIpset) : String := tag_to_ipset_name s.ipType s.tag true

/-- `self.family = "inet" if ip_type == IPV4 else "inet6"` (line 272). -/
def family (s : ActiveIpset) : String :=
  if s.ipType = IpType.v4 then "inet" else "inet6"

/-- Constructor state (`__init__`, lines 259-282). -/
def init (tag : String) (ipType : IpType) : ActiveIpset :=
  { tag := tag, ipType := ipType, members := ∅, programmed := none,
    notifiedReady := false, stopped := false }

/-- `owned_ipset_names` (lines 284-292). -/
def owned_ipset_names (s : ActiveIpset) : Finset String :=
  {s.name, s.tmpname}

/-- `replace_members` (lines 294-298). -/
def replace_members (s : ActiveIpset) (members : Finset String) : ActiveIpset :=
  { s with members := members }

/-- `add_member` (lines 300-304): insert only when absent. -/
def add_member (s : ActiveIpset) (member : String) : ActiveIpset :=
  if member ∉ s.members then { s with members := insert member s.members }
  else s

/-- `remove_member` (lines 306-312): a `KeyError` on an absent member is
swallowed, so this is plain erasure. -/
def remove_member (s : ActiveIpset) (member : String) : ActiveIpset :=
  { s with members := s.members.erase member }

/-- The `ipset restore` input lines built by `_sync_to_ipset`
(lines 341-368), given the iteration order of `self.members`. -/
def syncLines (s : ActiveIpset) (memberList : List String) : List String :=
  ["create " ++ s.name ++ " hash:ip family " ++ s.family ++ " --exist",
   "create " ++ s.tmpname ++ " hash:ip family " ++ s.family ++ " --exist",
   "flush " ++ s.tmpname]
  ++ memberList.map (fun m => "add " ++ s.tmpname ++ " " ++ m)
  ++ ["swap " ++ s.name ++ " " ++ s.tmpname,
      "destroy " ++ s.tmpname,
      "COMMIT"]

/-- Externally visible effects of the ActiveIpset actor. -/
inductive IpsetAction where
  /-- `futils.check_call(["ipset", "restore"], input_str=...)` -/
  | checkCallRestore (input_lines : List String)
  /-- `self._notify_ready()` -/
  | notifyReady
  /-- `futils.call_silent(["ipset", "destroy", name])` -/
  | destroy (name : String)
  /-- `self._notify_cleanup_complete()` -/
  | notifyCleanupComplete
deriving DecidableEq

/-- `_sync_to_ipset` (lines 341-371): emit the restore batch; on success set
`programmed_members` to a copy of `members`.  `syncOk` stands for whether the
`ipset restore` child process exits zero; `check_call` raises otherwise, in
which case `programmed_members` is left unchanged. -/
def sync_to_ipset (s : ActiveIpset) (syncOk : Bool) :
    Except (ActiveIpset × List IpsetAction) (ActiveIpset × List IpsetAction) :=
  let lines := syncLines s (s.members.sort (· ≤ ·))
  if syncOk then
    .ok ({ s with programmed := some s.members }, [.checkCallRestore lines])
  else
    .error (s, [.checkCallRestore lines])

/-- The trailing block of `_finish_msg_batch` (lines 336-339): notify ready
once, the first time the batch reaches the end of the method. -/
def notifyStep (s : ActiveIpset) (acts : List IpsetAction) :
    ActiveIpset × List IpsetAction :=
  if ¬s.notifiedReady then
    ({ s with notifiedReady := true }, acts ++ [.notifyReady])
  else (s, acts)

/-- `_finish_msg_batch` (lines 328-339).  The guard mirrors
`if not self.stopped and self.members != self.programmed_members` (a Python
set never equals `None`, hence the `Option`-level comparison).  Returns
`.error` when the batch raises (the sync's `check_call` failed), in which
case the ready-notification block is never reached. -/
def finish_msg_batch (s : ActiveIpset) (syncOk : Bool) :
    Except (ActiveIpset × List IpsetAction) (ActiveIpset × List IpsetAction) :=
  if ¬s.stopped ∧ some s.members ≠ s.programmed then
    (sync_to_ipset s syncOk).bind fun r => .ok (notifyStep r.1 r.2)
  else
    .ok (notifyStep s [])

/-- Observer: the actions a (possibly failing) batch issued before control
left `_finish_msg_batch`. -/
def batchActs :
    Except (ActiveIpset × List IpsetAction) (ActiveIpset × List IpsetAction) →
    List IpsetAction
  | .ok r => r.2
  | .error r => r.2

/-- A freshly-created-then-stopped ipset actor that has not yet signalled
ready (the state reached when `on_unreferenced` arrives before the first
batch completes). -/
def stoppedFresh : ActiveIpset :=
  { tag := "t", ipType := IpType.v4, members := ∅, programmed := none,
    notifiedReady := false, stopped := true }

end ActiveIpset

/-! ## IpsetManager (ipsets.py lines 38-254)

The manager's dicts become functions out of `String` (Python's
`defaultdict(set)` indexes become total functions defaulting to `∅`), with
explicit key lists for the two plain dicts whose key sets the code
enumerates in `apply_snapshot`.  The membership state of every starting or
live `ActiveIpset` child is the `live` map: per-member `add_member` /
`remove_member` messages to one FIFO actor apply in order, so the child's
quiescent `intended_members` is obtained by applying the set operations
directly. -/

/-- Pointwise update of a function-backed map. -/
def updFn {α : Type} (f : String → α) (k : String) (v : α) : String → α :=
  fun x => if x = k then v else f x

/-- An endpoint as the IpsetManager sees it: its `profile_id` and the nets
list stored under this manager's `nets_key` (`ipv4_nets`/`ipv6_nets`). -/
structure TagEndpoint where
  profile_id : String
  nets : List String
deriving DecidableEq

/-- The IPs of an endpoint: `map(futils.net_to_ip, ep.get(nets_key, []))`
collected into a set. -/
def TagEndpoint.ips (e : TagEndpoint) : Finset String :=
  (e.nets.map netToIp).toFinset

/-- IpsetManager state (ipsets.py lines 49-55), plus the set of
starting-or-live ActiveIpset children with their quiescent intended
members (`objects_by_id` ∘ members, the view `_is_starting_or_live`
guards). -/
structure IpsetMgrState where
  tagsByProfId : String → Option (List String)
  profKeys : List String
  endpointsByEpId : String → Option TagEndpoint
  epKeys : List String
  endpointIdsByTag : String → Finset String
  endpointIdsByProfileId : String → Finset String
  live : String → Option (Finset String)

/-- `IpsetManager.__init__` state (lines 49-55): everything empty. -/
def initIpsetMgr : IpsetMgrState :=
  { tagsByProfId := fun _ => none, profKeys := [],
    endpointsByEpId := fun _ => none, epKeys := [],
    endpointIdsByTag := fun _ => ∅,
    endpointIdsByProfileId := fun _ => ∅,
    live := fun _ => none }

/-- `self.tags_by_prof_id.get(p, [])`. -/
def profTags (st : IpsetMgrState) (p : String) : List String :=
  (st.tagsByProfId p).getD []

/-- The IPs currently contributed by an endpoint id:
`self.endpoints_by_ep_id.get(ep_id, {})` then its nets mapped to IPs
(a missing endpoint contributes nothing). -/
def epIdIps (st : IpsetMgrState) (ep_id : String) : Finset String :=
  ((st.endpointsByEpId ep_id).map TagEndpoint.ips).getD ∅

/-- `IpsetManager._process_tag_updates` (lines 156-183), expressed by its
per-tag effect: for each added tag the profile's endpoints are indexed and
their IPs added to the tag's live ipset; for each removed tag they are
un-indexed and their IPs removed.  (The source's per-endpoint, per-IP
`add_member`/`remove_member` loop collapses to the set union/difference at
quiescence.) -/
def processTagUpdates (st : IpsetMgrState) (profile_id : String)
    (old_tags new_tags : Finset String) : IpsetMgrState :=
  let endpoint_ids := st.endpointIdsByProfileId profile_id
  let added := new_tags \ old_tags
  let removed := old_tags \ new_tags
  let contributed := endpoint_ids.biUnion (fun ep_id => epIdIps st ep_id)
  { st with
    endpointIdsByTag := fun T =>
      if T ∈ added then st.endpointIdsByTag T ∪ endpoint_ids
      else if T ∈ removed then st.endpointIdsByTag T \ endpoint_ids
      else st.endpointIdsByTag T,
    live := fun T =>
      if T ∈ added then (st.live T).map (fun m => m ∪ contributed)
      else if T ∈ removed then (st.live T).map (fun m => m \ contributed)
      else st.live T }

/-- `IpsetManager.on_tags_update` (lines 138-154): run the tag diff, then
store (or pop) the profile's tag list. -/
def onTagsUpdate (st : IpsetMgrState) (profile_id : String)
    (tags : Option (List String)) : IpsetMgrState :=
  let old_tags := (profTags st profile_id).toFinset
  let new_tags := (tags.getD []).toFinset
  let st1 := processTagUpdates st profile_id old_tags new_tags
  match tags with
  | none =>
      { st1 with tagsByProfId := updFn st1.tagsByProfId profile_id none,
                 profKeys := st1.profKeys.erase profile_id }
  | some ts =>
      { st1 with tagsByProfId := updFn st1.tagsByProfId profile_id (some ts),
                 profKeys := if profile_id ∈ st1.profKeys then st1.profKeys
                             else profile_id :: st1.profKeys }

/-- `IpsetManager.on_endpoint_update` (lines 185-254).  Python truthiness of
`old_prof_id` (`if old_prof_id:`) is false both for an unknown endpoint and
for an empty profile id, hence the explicit `≠ ""` tests. -/
def onEndpointUpdate (st : IpsetMgrState) (endpoint_id : String)
    (endpoint : Option TagEndpoint) : IpsetMgrState :=
  let old_endpoint := st.endpointsByEpId endpoint_id
  let old_tags : Finset String :=
    match old_endpoint with
    | some o => if o.profile_id ≠ "" then (profTags st o.profile_id).toFinset
                else ∅
    | none => ∅
  match endpoint with
  | none =>
    match old_endpoint with
    | none => st    -- "Delete for unknown endpoint" (lines 196-198)
    | some o =>
      let st1 := { st with
        endpointIdsByProfileId := updFn st.endpointIdsByProfileId o.profile_id
          ((st.endpointIdsByProfileId o.profile_id).erase endpoint_id) }
      { st1 with
        endpointIdsByTag := fun T =>
          if T ∈ old_tags then (st1.endpointIdsByTag T).erase endpoint_id
          else st1.endpointIdsByTag T,
        live := fun T =>
          if T ∈ old_tags then (st1.live T).map (fun m => m \ o.ips)
          else st1.live T,
        endpointsByEpId := updFn st1.endpointsByEpId endpoint_id none,
        epKeys := st1.epKeys.erase endpoint_id }
  | some newEp =>
    let new_prof_id := newEp.profile_id
    let new_tags := (profTags st new_prof_id).toFinset
    let old_ips : Finset String := (old_endpoint.map TagEndpoint.ips).getD ∅
    let new_ips := newEp.ips
    -- lines 228-244: the IP-diff loop, the removed-tags loop and the
    -- new-tags loop, by their per-tag effect and in the source's order.
    let st1 := { st with
      live := fun T =>
        let m0 := st.live T
        let m1 := if T ∈ old_tags then m0.map (fun s => s \ (old_ips \ new_ips))
                  else m0
        let m2 := if T ∈ old_tags ∧ T ∉ new_tags then m1.map (fun s => s \ old_ips)
                  else m1
        if T ∈ new_tags then m2.map (fun s => s ∪ new_ips) else m2,
      endpointIdsByTag := fun T =>
        let s0 := st.endpointIdsByTag T
        let s1 := if T ∈ old_tags ∧ T ∉ new_tags then s0.erase endpoint_id
                  else s0
        if T ∈ new_tags then insert endpoint_id s1 else s1 }
    -- line 246
    let st2 := { st1 with
      endpointsByEpId := updFn st1.endpointsByEpId endpoint_id (some newEp),
      epKeys := if endpoint_id ∈ st1.epKeys then st1.epKeys
                else endpoint_id :: st1.epKeys }
    -- lines 247-251
    let st3 :=
      match old_endpoint with
      | some o =>
        if o.profile_id ≠ "" ∧ o.profile_id ≠ new_prof_id then
          { st2 with
            endpointIdsByProfileId := updFn st2.endpointIdsByProfileId
              o.profile_id
              ((st2.endpointIdsByProfileId o.profile_id).erase endpoint_id) }
        else st2
      | none => st2
    -- line 252
    { st3 with
      endpointIdsByProfileId := updFn st3.endpointIdsByProfileId new_prof_id
        (insert endpoint_id (st3.endpointIdsByProfileId new_prof_id)) }

/-- `ReferenceManager.get_and_incref` creating a new child:
`IpsetManager._create` (lines 57-72) seeds the new ActiveIpset with the
member set computed from the indices, via a queued `replace_members`. -/
def createIpsetActor (st : IpsetMgrState) (tag_id : String) : IpsetMgrState :=
  let members := (st.endpointIdsByTag tag_id).biUnion
    (fun ep_id => epIdIps st ep_id)
  { st with live := updFn st.live tag_id (some members) }

/-- `decref` to zero: the child leaves `objects_by_id` (it moves to the
stopping map and `_is_starting_or_live` becomes false), so the manager
stops addressing it. -/
def removeIpsetActor (st : IpsetMgrState) (tag_id : String) : IpsetMgrState :=
  { st with live := updFn st.live tag_id none }

/-- `IpsetManager.apply_snapshot` (lines 82-106): process every snapshot
entry as an update, then every currently-stored key missing from the
snapshot as a deletion. -/
def mgrApplySnapshot (st : IpsetMgrState)
    (tags_by_prof_id : List (String × List String))
    (endpoints_by_id : List (String × TagEndpoint)) : IpsetMgrState :=
  let missing_profile_ids := st.profKeys.filter
    (fun p => (tags_by_prof_id.find? (fun pr => pr.1 = p)).isNone)
  let st1 := tags_by_prof_id.foldl
    (fun s pr => onTagsUpdate s pr.1 (some pr.2)) st
  let st2 := missing_profile_ids.foldl (fun s p => onTagsUpdate s p none) st1
  let missing_endpoints := st2.epKeys.filter
    (fun id => (endpoints_by_id.find? (fun pr => pr.1 = id)).isNone)
  let st3 := endpoints_by_id.foldl
    (fun s pr => onEndpointUpdate s pr.1 (some pr.2)) st2
  missing_endpoints.foldl (fun s id => onEndpointUpdate s id none) st3

/-- The messages of claim C1's quantification, plus child
creation/removal (which is how a tag comes to have a live ipset actor). -/
inductive IpsetMgrMsg where
  | tagsUpdate (profile_id : String) (tags : Option (List String))
  | endpointUpdate (endpoint_id : String) (endpoint : Option TagEndpoint)
  | snapshot (tags_by_prof_id : List (String × List String))
             (endpoints_by_id : List (String × TagEndpoint))
  | createIpset (tag_id : String)
  | removeIpset (tag_id : String)

/-- One manager message. -/
def mgrStep (st : IpsetMgrState) : IpsetMgrMsg → IpsetMgrState
  | .tagsUpdate p tags => onTagsUpdate st p tags
  | .endpointUpdate id ep => onEndpointUpdate st id ep
  | .snapshot tags eps => mgrApplySnapshot st tags eps
  | .createIpset tag => createIpsetActor st tag
  | .removeIpset tag => removeIpsetActor st tag

/-- A whole message sequence, processed to quiescence. -/
def mgrRun (st : IpsetMgrState) (msgs : List IpsetMgrMsg) : IpsetMgrState :=
  msgs.foldl mgrStep st

/-- The `(endpoint_id, endpoint)` pairs a message carries. -/
def msgEndpoints : IpsetMgrMsg → List (String × TagEndpoint)
  | .endpointUpdate id (some e) => [(id, e)]
  | .snapshot _ eps => eps
  | _ => []

/-- All endpoint values mentioned across a message sequence. -/
def epMentions (msgs : List IpsetMgrMsg) : List (String × TagEndpoint) :=
  msgs.foldr (fun m acc => msgEndpoints m ++ acc) []

/-- The spec's intended membership of tag `T`: the union, over every
endpoint whose current profile's tag list contains `T`, of that endpoint's
IPs. -/
def semMember (st : IpsetMgrState) (T ip : String) : Prop :=
  ∃ id e, st.endpointsByEpId id = some e ∧ T ∈ profTags st e.profile_id ∧
    ip ∈ e.ips

/-- `IpsetManager.cleanup` (ipsets.py lines 108-136): of all kernel ipset
names, those carrying this family's main or temp prefix and owned by no
live or stopping child are destroyed.  `children` stands for
`objects_by_id.values() + stopping_objects_by_id.values()`; the returned
set is the set of names passed to `ipset destroy`. -/
def cleanup (ip_type : IpType) (all_ipsets : List String)
    (children : List ActiveIpset) : Finset String :=
  let pfx := IPSET_PREFIX ip_type
  let tmppfx := IPSET_TMP_PREFIX ip_type
  let felix_ipsets := (all_ipsets.filter
    (fun n => n.startsWith pfx || n.startsWith tmppfx)).toFinset
  let whitelist := children.foldl
    (fun w ipset => w ∪ ipset.owned_ipset_names) ∅
  felix_ipsets \ whitelist

/-! ## Per-endpoint iptables chains (endpoint.py lines 378-463) -/

/-- `Modelled from the spec` (futils.uniquely_shorten is outside the
provided sources): a deterministic truncation of `s` fitting the tool's
name limit.  None of the claims depends on the truncation itself, so it is
modelled as the identity. -/
def uniquely_shorten (s : String) (_length : Nat) : String := s

/-- Python's `str.upper()` for the ASCII strings involved here. -/
def strUpper (s : String) : String :=
  String.mk (s.data.map Char.toUpper)

/-- Python's `str.replace(pat, "", 1)`: drop the first occurrence of
`pat`. -/
def replaceFirst (s pat : String) : String :=
  match s.splitOn pat with
  | [] => s
  | [x] => x
  | x :: y :: rest => x ++ y ++ (rest.foldl (fun acc z => acc ++ pat ++ z) "")

/-- The agent configuration fields endpoint.py reads. -/
structure FelixConfig where
  HOSTNAME : String
  IFACE_PREFIX : String
deriving DecidableEq

/-- `interface_to_suffix` (endpoint.py lines 378-382). -/
def interface_to_suffix (config : FelixConfig) (iface_name : String) : String :=
  uniquely_shorten (replaceFirst iface_name config.IFACE_PREFIX) 16

/-- `Modelled from the spec` (frules.py is outside the provided sources):
the fixed per-endpoint chain prefixes (§8 scenario 1 names the chains
`felix-to-<h>` / `felix-from-<h>`). -/
def CHAIN_TO_PREFIX : String := "felix-to-"

/-- `Modelled from the spec`: see `CHAIN_TO_PREFIX`. -/
def CHAIN_FROM_PREFIX : String := "felix-from-"

/-- `Modelled from the spec` (frules.profile_to_chain_name is outside the
provided sources): the per-profile chain name for a direction. -/
def profile_to_chain_name (inbound_or_outbound profile_id : String) : String :=
  "felix-p-" ++ profile_id ++ "-" ++ inbound_or_outbound

/-- `Modelled from the spec` (frules.commented_drop_fragment is outside the
provided sources): a DROP rule fragment carrying a comment. -/
def commented_drop_fragment (chain comment : String) : String :=
  "--append " ++ chain ++ " --jump DROP -m comment --comment " ++ comment

/-- `chain_names` (endpoint.py lines 385-388). -/
def chain_names (endpoint_suffix : String) : String × String :=
  (CHAIN_TO_PREFIX ++ endpoint_suffix, CHAIN_FROM_PREFIX ++ endpoint_suffix)

/-- Python's `"/" in ip`. -/
def containsSlash (ip : String) : Bool :=
  ip.data.contains '/'

/-- The CIDR normalization inside `_get_endpoint_rules` (lines 448-451):
an IP containing "/" is used as-is, a bare address becomes /32 (IPv4) or
/128 (otherwise, i.e. IPv6). -/
def cidrOfIp (ip_version : Nat) (ip : String) : String :=
  if containsSlash ip then ip
  else if ip_version = 4 then ip ++ "/32" else ip ++ "/128"

/-- The result of `_get_endpoint_rules`: the two chains (keyed by their
names in `updates`) and their dependency sets. -/
structure EndpointRules where
  toChainName : String
  toChain : List String
  toDeps : Finset String
  fromChainName : String
  fromChain : List String
  fromDeps : Finset String
deriving DecidableEq

/-- `_get_endpoint_rules` (endpoint.py lines 391-463).  (`iface` is unused
in the source body too.) -/
def getEndpointRules (suffix _iface : String) (ip_version : Nat)
    (local_ips : List String) (mac : String) (profile_id : String) :
    EndpointRules :=
  let to_chain_name := (chain_names suffix).1
  let from_chain_name := (chain_names suffix).2
  let to_chain :=
    ["--flush " ++ to_chain_name]
    ++ (if ip_version = 6 then
         ["130", "131", "132", "134", "135", "136"].map (fun icmp_type =>
           "--append " ++ to_chain_name ++ " --jump RETURN " ++
           "--protocol ipv6-icmp --icmpv6-type " ++ icmp_type)
        else [])
    ++ ["--append " ++ to_chain_name ++
          " --match conntrack --ctstate INVALID --jump DROP",
        "--append " ++ to_chain_name ++
          " --match conntrack --ctstate RELATED,ESTABLISHED --jump RETURN"]
  let profile_in_chain := profile_to_chain_name "inbound" profile_id
  let to_chain := to_chain ++
    ["--append " ++ to_chain_name ++ " --goto " ++ profile_in_chain]
  let to_deps : Finset String := {profile_in_chain}
  let from_chain :=
    ["--flush " ++ from_chain_name]
    ++ (if ip_version = 6 then
         ["--append " ++ from_chain_name ++ " --protocol ipv6-icmp"]
        else [])
    ++ ["--append " ++ from_chain_name ++
          " --match conntrack --ctstate INVALID --jump DROP",
        "--append " ++ from_chain_name ++
          " --match conntrack --ctstate RELATED,ESTABLISHED --jump RETURN"]
    ++ (if ip_version = 4 then
         ["--append " ++ from_chain_name ++
            " --protocol udp --sport 68 --dport 67 --jump RETURN"]
        else
         ["--append " ++ from_chain_name ++
            " --protocol udp --sport 546 --dport 547 --jump RETURN"])
  let profile_out_chain := profile_to_chain_name "outbound" profile_id
  let from_deps : Finset String := {profile_out_chain}
  let from_chain := from_chain ++ local_ips.map (fun ip =>
    "--append " ++ from_chain_name ++ " --src " ++ cidrOfIp ip_version ip ++
    " --match mac --mac-source " ++ strUpper mac ++ " --goto " ++
    profile_out_chain)
  let from_chain := from_chain ++
    [commented_drop_fragment from_chain_name "Anti-spoof DROP:"]
  { toChainName := to_chain_name, toChain := to_chain, toDeps := to_deps,
    fromChainName := from_chain_name, fromChain := from_chain,
    fromDeps := from_deps }

/-! ## LocalEndpoint (endpoint.py lines 161-375)

The actor's fields plus the messages it posts to its peers (iptables
updater, dispatch chains, rules manager) and the device calls.  A boolean
`rewriteOk` stands for whether the synchronous `rewrite_chains` call
returns or raises `CalledProcessError`. -/

/-- An endpoint dict as endpoint.py reads it (`host`, `name`, `mac`,
`profile_id` are validated strings; `state` defaults to "active"; `nets`
is the `ipv{N}_nets` list for this actor's IP version). -/
structure EpmEndpoint where
  host : String
  name : String
  state : String
  mac : String
  profile_id : String
  nets : List String
deriving DecidableEq

/-- LocalEndpoint mutable fields (lines 179-187). -/
structure LocalEndpointState where
  endpoint : Option EpmEndpoint
  ifaceName : Option String
  suffix : Option String
  failed : Bool
deriving DecidableEq

/-- Fresh LocalEndpoint (lines 181-187). -/
def initLocalEndpoint : LocalEndpointState :=
  { endpoint := none, ifaceName := none, suffix := none, failed := false }

/-- Messages/calls a LocalEndpoint emits. -/
inductive LepAction where
  | rewriteChains (rules : EndpointRules)
  | deleteChains (names : String × String)
  | dispatchAdd (iface : String) (endpoint_id : String)
  | dispatchRemove (iface : Option String)
  | rulesIncref (profile_id : String)
  | rulesDecref (profile_id : String)
  | configureInterface
  | deconfigureInterface
deriving DecidableEq

/-- Whether an action programs chains into the kernel. -/
def LepAction.isRewriteChains : LepAction → Bool
  | .rewriteChains _ => true
  | _ => false

/-- `LocalEndpoint._missing_deps` (lines 245-257). -/
def lepMissingDeps (st : LocalEndpointState) : List String :=
  match st.endpoint with
  | none => ["endpoint"]
  | some ep =>
    if ep.state ≠ "active" then ["endpoint active"]
    else if ep.profile_id = "" then ["profile"]
    else []

/-- `LocalEndpoint._ready` (lines 259-265). -/
def lepReady (st : LocalEndpointState) : Bool :=
  lepMissingDeps st = []

/-- Fallback endpoint used to keep field access total; the source only
reaches the corresponding accesses with `self.endpoint` set. -/
def blankEp : EpmEndpoint :=
  { host := "", name := "", state := "", mac := "", profile_id := "",
    nets := [] }

/-- `LocalEndpoint._remove_chains` (lines 314-320): best-effort async
delete of the two owned chains. -/
def lepRemoveChains (st : LocalEndpointState) :
    LocalEndpointState × List LepAction :=
  (st, [.deleteChains (chain_names (st.suffix.getD ""))])

/-- `LocalEndpoint._update_chains` (lines 299-312): build the rules and
synchronously rewrite; on `CalledProcessError` set the failed latch and
remove the chains. -/
def lepUpdateChains (ip_version : Nat) (st : LocalEndpointState)
    (rewriteOk : Bool) : LocalEndpointState × List LepAction :=
  let ep := st.endpoint.getD blankEp
  let rules := getEndpointRules (st.suffix.getD "") (st.ifaceName.getD "")
    ip_version ep.nets ep.mac ep.profile_id
  if rewriteOk then (st, [.rewriteChains rules])
  else
    let st1 := { st with failed := true }
    let (st2, acts) := lepRemoveChains st1
    (st2, [.rewriteChains rules] ++ acts)

/-- `LocalEndpoint._maybe_update` (lines 267-297). -/
def lepMaybeUpdate (ip_version : Nat) (endpoint_id : String)
    (st : LocalEndpointState) (was_ready : Bool) (rewriteOk : Bool) :
    LocalEndpointState × List LepAction :=
  let is_ready := lepReady st
  if st.failed || (is_ready != was_ready) then
    if is_ready then
      let st1 := { st with failed := false }
      let (st2, acts) := lepUpdateChains ip_version st1 rewriteOk
      (st2, acts ++ [.dispatchAdd (st.ifaceName.getD "") endpoint_id])
    else
      let st1 := { st with failed := false }
      let (st2, acts) := lepRemoveChains st1
      (st2, [.dispatchRemove st.ifaceName] ++ acts)
  else (st, [])

/-- `LocalEndpoint.on_endpoint_update` (lines 189-226). -/
def lepOnEndpointUpdate (config : FelixConfig) (ip_version : Nat)
    (endpoint_id : String) (st : LocalEndpointState)
    (endpoint : Option EpmEndpoint) (rewriteOk : Bool) :
    LocalEndpointState × List LepAction :=
  -- lines 196-201: first sight of the endpoint fixes the interface name
  -- and suffix.
  let st0 :=
    match endpoint, st.endpoint with
    | some ep, none =>
      { st with ifaceName := some ep.name,
                suffix := some (interface_to_suffix config ep.name) }
    | _, _ => st
  let was_ready := lepReady st0
  -- lines 204-212: profile refcount moves.  `old_profile_id` is
  -- `self.endpoint and self.endpoint["profile_id"]`; `if old_profile_id:`
  -- is Python truthiness (false for an empty id), while the incref guard
  -- is `is not None`.
  let old_profile_id := st0.endpoint.map (fun e => e.profile_id)
  let new_profile_id := endpoint.map (fun e => e.profile_id)
  let refActs :=
    if old_profile_id ≠ new_profile_id then
      (match old_profile_id with
       | some p => if p ≠ "" then [LepAction.rulesDecref p] else []
       | none => []) ++
      (match new_profile_id with
       | some p => [LepAction.rulesIncref p]
       | none => [])
    else []
  -- line 215
  let st1 := { st0 with endpoint := endpoint }
  -- lines 217-223
  let ifaceActs := match endpoint with
    | some _ => [LepAction.configureInterface]
    | none => [LepAction.deconfigureInterface]
  -- line 225
  let (st2, updActs) := lepMaybeUpdate ip_version endpoint_id st1 was_ready
    rewriteOk
  (st2, refActs ++ ifaceActs ++ updActs)

/-- `LocalEndpoint.on_interface_update` (lines 237-243): a kick only
retries `_configure_interface`; it touches neither the chains nor the
failed latch. -/
def lepOnInterfaceUpdate (st : LocalEndpointState) :
    LocalEndpointState × List LepAction :=
  (st, [.configureInterface])

/-! ## EndpointManager (endpoint.py lines 37-158) -/

/-- EndpointManager state (lines 54-60) plus the
`_is_starting_or_live` view of its children. -/
structure EndpointMgrState where
  endpointsById : String → Option EpmEndpoint
  epKeys : List String
  endpointIdByIfaceName : String → Option String
  localEndpointIds : Finset String
  liveChildren : String → Bool

/-- Fresh EndpointManager (lines 54-60). -/
def initEndpointMgr : EndpointMgrState :=
  { endpointsById := fun _ => none, epKeys := [],
    endpointIdByIfaceName := fun _ => none, localEndpointIds := ∅,
    liveChildren := fun _ => false }

/-- Messages/calls an EndpointManager emits. -/
inductive EpmAction where
  | getAndIncref (endpoint_id : String)
  | decref (endpoint_id : String)
  | forwardEndpointUpdate (endpoint_id : String)
      (endpoint : Option EpmEndpoint)
  | dispatchSnapshot (iface_to_ep_id : List (String × String))
  | forwardInterfaceKick (endpoint_id : String)
deriving DecidableEq

/-- `EndpointManager.on_endpoint_update` (lines 102-137). -/
def epmOnEndpointUpdate (hostname : String) (st : EndpointMgrState)
    (endpoint_id : String) (endpoint : Option EpmEndpoint) :
    EndpointMgrState × List EpmAction :=
  -- lines 112-115: forward to the child if it is running.
  let fwActs := if st.liveChildren endpoint_id then
      [EpmAction.forwardEndpointUpdate endpoint_id endpoint] else []
  match endpoint with
  | none =>
    -- lines 116-124
    let old_ep := st.endpointsById endpoint_id
    let st1 := { st with
      endpointsById := updFn st.endpointsById endpoint_id none,
      epKeys := st.epKeys.erase endpoint_id }
    let st2 :=
      match old_ep with
      | some o =>
        if (st1.endpointIdByIfaceName o.name).isSome then
          { st1 with
            endpointIdByIfaceName := updFn st1.endpointIdByIfaceName o.name none }
        else st1
      | none => st1
    if endpoint_id ∈ st2.localEndpointIds then
      ({ st2 with localEndpointIds := st2.localEndpointIds.erase endpoint_id },
       fwActs ++ [EpmAction.decref endpoint_id])
    else (st2, fwActs)
  | some ep =>
    -- lines 125-129
    let st1 := { st with
      endpointsById := updFn st.endpointsById endpoint_id (some ep),
      epKeys := if endpoint_id ∈ st.epKeys then st.epKeys
                else endpoint_id :: st.epKeys,
      endpointIdByIfaceName :=
        updFn st.endpointIdByIfaceName ep.name (some endpoint_id) }
    -- lines 131-137
    if ep.host = hostname ∧ endpoint_id ∉ st1.localEndpointIds then
      ({ st1 with localEndpointIds := insert endpoint_id st1.localEndpointIds },
       fwActs ++ [EpmAction.getAndIncref endpoint_id])
    else (st1, fwActs)

/-- `EndpointManager.on_interface_update` (lines 139-158): unknown
interface names are ignored. -/
def epmOnInterfaceUpdate (st : EndpointMgrState) (name : String) :
    EndpointMgrState × List EpmAction :=
  match st.endpointIdByIfaceName name with
  | some endpoint_id =>
    if st.liveChildren endpoint_id then
      (st, [.forwardInterfaceKick endpoint_id])
    else (st, [])
  | none => (st, [])

/-- Lookup in an assignment list modelling a Python dict: the latest
binding of a key wins. -/
def assocFind (m : List (String × String)) (k : String) : Option String :=
  (m.reverse.find? (fun pr => pr.1 = k)).map (fun pr => pr.2)

/-- The `local_iface_name_to_ep_id` dict of
`EndpointManager.apply_snapshot` (lines 87-90): the entries for endpoints
on this host that have a (non-empty: `ep.get("name")` is a truthiness
test) name.  Each dict assignment appends; `assocFind` reads the latest
binding. -/
def localIfaceMap (hostname : String)
    (endpoints_by_id : List (String × EpmEndpoint)) :
    List (String × String) :=
  endpoints_by_id.foldl (fun m pr =>
    if pr.2.host = hostname ∧ pr.2.name ≠ "" then m ++ [(pr.2.name, pr.1)]
    else m) []

/-- `EndpointManager.apply_snapshot` (lines 81-100): push the dispatch
snapshot first, then delegate each entry, then delete the missing ones. -/
def epmApplySnapshot (hostname : String) (st : EndpointMgrState)
    (endpoints_by_id : List (String × EpmEndpoint)) :
    EndpointMgrState × List EpmAction :=
  let missing_endpoints := st.epKeys.filter
    (fun id => (endpoints_by_id.find? (fun pr => pr.1 = id)).isNone)
  let snapAct := EpmAction.dispatchSnapshot
    (localIfaceMap hostname endpoints_by_id)
  let (st1, acts1) := endpoints_by_id.foldl
    (fun (acc : EndpointMgrState × List EpmAction) pr =>
      let (s, a) := epmOnEndpointUpdate hostname acc.1 pr.1 (some pr.2)
      (s, acc.2 ++ a)) (st, [])
  let (st2, acts2) := missing_endpoints.foldl
    (fun (acc : EndpointMgrState × List EpmAction) id =>
      let (s, a) := epmOnEndpointUpdate hostname acc.1 id none
      (s, acc.2 ++ a)) (st1, [])
  (st2, snapAct :: (acts1 ++ acts2))

/-! ## Datastore payload parsing and validation (fetcd.py lines 366-646)

Payloads arrive as decoded JSON values; `json_decoder.decode` is modelled
by taking the already-decoded value.  Python's `ValidationFailed` becomes
`VResult.failed`; any other exception escaping the parse/validate code
(`TypeError`, `AttributeError`) becomes `VResult.crashed` / `Except.error`,
since `parse_if_*` catches only `ValidationFailed`. -/

/-- A decoded JSON value. -/
inductive JVal where
  | str (s : String)
  | num (n : Int)
  | boolean (b : Bool)
  | null
  | arr (xs : List JVal)
  | obj (kvs : List (String × JVal))

/-- Dict lookup: Python's `d.get(k)` / `k in d` (on a non-dict: `none`). -/
def JVal.get : JVal → String → Option JVal
  | .obj kvs, k => (kvs.find? (fun pr => pr.1 = k)).map (fun pr => pr.2)
  | _, _ => none

/-- `d.get(k)` where a stored JSON `null` means Python `None`, as tested by
the `is not None` guards. -/
def JVal.getNN (j : JVal) (k : String) : Option JVal :=
  match j.get k with
  | some .null => none
  | v => v

/-- Python `d[k] = v`.  On a non-dict this is a `TypeError` (`none`). -/
def JVal.setKey : JVal → String → JVal → Option JVal
  | .obj kvs, k, v => some (.obj (kvs.filter (fun pr => pr.1 ≠ k) ++ [(k, v)]))
  | _, _, _ => none

/-- Result of running a validator: `ValidationFailed` is raised with the
joined issue list; any other exception is a crash that `parse_if_*` does
not catch. -/
inductive VResult where
  | ok
  | failed (msg : String)
  | crashed
deriving DecidableEq

/-- `Modelled from the spec` (common.validate_ip_addr is outside the
provided sources): a dotted quad of 0-255 components. -/
def validIpv4Addr (s : String) : Bool :=
  let parts := s.splitOn "."
  decide (parts.length = 4) && parts.all (fun p =>
    decide (p.length ≥ 1) && p.all Char.isDigit &&
    (match p.toNat? with
     | some n => decide (n ≤ 255)
     | none => false))

/-- `Modelled from the spec`: a coarse IPv6 address shape (hex groups and
colons). -/
def validIpv6Addr (s : String) : Bool :=
  s.any (fun c => c = ':') &&
  s.all (fun c => c.isDigit || (c ≥ 'a' && c ≤ 'f') || (c ≥ 'A' && c ≤ 'F')
                  || c = ':')

/-- `Modelled from the spec` (common.validate_ip_addr): non-strings are
invalid; `version` is 4, 6, or unconstrained (`None`). -/
def validate_ip_addr (v : JVal) (version : Option Nat) : Bool :=
  match v with
  | .str s =>
    match version with
    | some 4 => validIpv4Addr s
    | some 6 => validIpv6Addr s
    | _ => validIpv4Addr s || validIpv6Addr s
  | _ => false

/-- `Modelled from the spec` (common.validate_cidr): an address optionally
followed by "/" and a prefix length within the family bound. -/
def validate_cidr (v : JVal) (version : Option Nat) : Bool :=
  match v with
  | .str s =>
    match s.splitOn "/" with
    | [addr] => validate_ip_addr (.str addr) version
    | [addr, len] =>
      validate_ip_addr (.str addr) version &&
      (match len.toNat? with
       | some n =>
         decide (n ≤ (match version with
                      | some 4 => 32
                      | _ => 128))
       | none => false)
    | _ => false
  | _ => false

/-- The issues the `state` check of `validate_endpoint` collects
(fetcd.py lines 411-414). -/
def endpointStateIssues (endpoint : JVal) : List String :=
  match endpoint.get "state" with
  | none => ["Missing 'state' field."]
  | some (.str s) =>
    if s ≠ "active" ∧ s ≠ "inactive" then
      ["Expected 'state' to be one of active/inactive."]
    else []
  | some _ => ["Expected 'state' to be one of active/inactive."]

/-- The required string fields check (fetcd.py lines 416-421). -/
def endpointFieldIssues (endpoint : JVal) : List String :=
  (["name", "mac", "profile_id"].map (fun field =>
    match endpoint.get field with
    | none => ["Missing '" ++ field ++ "' field."]
    | some (.str _) => []
    | some _ => ["Expected '" ++ field ++ "' to be a string."])).flatten

/-- The nets check for one version (fetcd.py lines 428-437): missing key is
an issue; otherwise the `for` iterates the value — a list element by
element, a string one-character string at a time, a dict over its keys —
and the first invalid CIDR is an issue (the loop breaks).  A number,
boolean or null nets value is not iterable in Python, so the `for` raises
`TypeError`: a crash, returned as `none` here. -/
def endpointNetsIssues (endpoint : JVal) (version : Nat) :
    Option (List String) :=
  let nets := "ipv" ++ toString version ++ "_nets"
  let check : List JVal → List String := fun ips =>
    if ips.all (fun ip => validate_cidr ip (some version)) then []
    else ["IP address is not a valid IPv" ++ toString version ++ " CIDR."]
  match endpoint.get nets with
  | none => some ["Missing network " ++ nets ++ "."]
  | some (.arr ips) => some (check ips)
  | some (.str s) =>
    some (check (s.data.map (fun c => JVal.str (String.mk [c]))))
  | some (.obj kvs) => some (check (kvs.map (fun pr => JVal.str pr.1)))
  | some _ => none

/-- The gateway check for one version (fetcd.py lines 439-447). -/
def endpointGwIssues (endpoint : JVal) (version : Nat) : List String :=
  let gw_key := "ipv" ++ toString version ++ "_gateway"
  match endpoint.get gw_key with
  | none => []
  | some .null => []
  | some v =>
    if validate_ip_addr v (some version) then []
    else [gw_key ++ " is not a valid IPv" ++ toString version ++
          " gateway address."]

/-- `validate_endpoint` (fetcd.py lines 396-450).  The interface-prefix
check calls `.startswith` on `endpoint["name"]`, which raises
`AttributeError` (a crash, not a `ValidationFailed`) when the name is
present but not a string; a non-iterable (number/boolean/null) nets value
makes the nets loop raise `TypeError`, also a crash.  An iterable but
non-list nets value (a string or a dict) is iterated as Python iterates
it and only yields validation issues. -/
def validate_endpoint (config : FelixConfig) (endpoint : JVal) : VResult :=
  match endpoint with
  | .obj _ =>
    let issues1 := endpointStateIssues endpoint ++ endpointFieldIssues endpoint
    match endpoint.get "name" with
    | some (.str n) =>
      let nameIssues :=
        if ¬n.startsWith config.IFACE_PREFIX then
          ["Interface '" ++ n ++ "' does not start with '" ++
           config.IFACE_PREFIX ++ "'."]
        else []
      (match endpointNetsIssues endpoint 4, endpointNetsIssues endpoint 6 with
       | some is4, some is6 =>
         let issues := issues1 ++ nameIssues ++ is4 ++
           endpointGwIssues endpoint 4 ++ is6 ++ endpointGwIssues endpoint 6
         if issues = [] then .ok else .failed (String.intercalate " " issues)
       | _, _ => .crashed)
    | some _ => .crashed
    | none =>
      (match endpointNetsIssues endpoint 4, endpointNetsIssues endpoint 6 with
       | some is4, some is6 =>
         let issues := issues1 ++ is4 ++ endpointGwIssues endpoint 4 ++ is6 ++
           endpointGwIssues endpoint 6
         if issues = [] then .ok else .failed (String.intercalate " " issues)
       | _, _ => .crashed)
  | _ => .failed "Expected endpoint to be a dict."

/-- `validate_rule_port` (fetcd.py lines 569-600).  In Python 2 a bool is
an int, so `True`/`False` take the integer branch as 1/0. -/
def validate_rule_port (port : JVal) : Option String :=
  match port with
  | .num n => if n < 1 ∨ n > 65535 then some "integer out of range" else none
  | .boolean b => if b then none else some "integer out of range"
  | .str s =>
    match s.splitOn ":" with
    | [a, b] =>
      (match a.toInt?, b.toInt? with
       | some s1, some e1 =>
         if s1 ≥ e1 ∨ s1 < 1 ∨ e1 > 65535 then some "range invalid" else none
       | _, _ => some "range invalid")
    | _ => some "range unparseable"
  | _ => some "neither integer nor string"

/-- `Modelled from the spec` §3 (frules.KNOWN_RULE_KEYS is outside the
provided sources): the rule record's recognized fields. -/
def KNOWN_RULE_KEYS : List String :=
  ["protocol", "ip_version", "src_net", "dst_net", "src_ports", "dst_ports",
   "src_tag", "dst_tag", "icmp_type", "icmp_code", "action"]

/-- The ports check for one key (fetcd.py lines 528-541). -/
def rulePortsIssues (rule : JVal) (key : String) : List String :=
  match rule.getNN key with
  | none => []
  | some (.arr ports) =>
    (ports.map (fun p =>
      match validate_rule_port p with
      | some err => ["Invalid port (" ++ err ++ ") in rule."]
      | none => [])).flatten
  | some _ => ["Expected ports to be a list in rule."]

/-- The checks of one rule after the ip_version gate (fetcd.py lines
514-563): protocol/version mismatch, nets, ports, action, ICMP fields,
unknown keys.  Python 2 oddities: a mixed-type `0 <= x <= 255` comparison
is `False` for non-numeric `x` (an issue), while bools are ints. -/
def ruleTailIssues (rule : JVal) (kvs : List (String × JVal))
    (ipv : Option Nat) : List String :=
  let isProto : String → Bool := fun p =>
    match rule.getNN "protocol" with
    | some (.str q) => q = p
    | _ => false
  let mismatchIssues :=
    (if ipv = some 4 ∧ isProto "icmpv6" then
       ["Using icmpv6 with IPv4 in rule."] else []) ++
    (if ipv = some 6 ∧ isProto "icmp" then
       ["Using icmp with IPv6 in rule."] else [])
  let netIssues := (["src_net", "dst_net"].map (fun key =>
    match rule.getNN key with
    | none => []
    | some v =>
      if ¬validate_cidr v ipv then ["Invalid CIDR in rule."] else [])).flatten
  let actionIssues :=
    match rule.getNN "action" with
    | none => []
    | some (.str a) =>
      if a = "allow" ∨ a = "deny" then [] else ["Invalid action in rule."]
    | some _ => ["Invalid action in rule."]
  let icmpTypePresent : Bool := (rule.getNN "icmp_type").isSome
  let icmpTypeIssues :=
    match rule.getNN "icmp_type" with
    | none => []
    | some (.num n) =>
      if n < 0 ∨ n > 255 then ["ICMP type is out of range."] else []
    | some (.boolean _) => []
    | some _ => ["ICMP type is out of range."]
  let icmpCodeIssues :=
    match rule.getNN "icmp_code" with
    | none => []
    | some v =>
      (match v with
       | .num n => if n < 0 ∨ n > 255 then ["ICMP code is out of range."]
                   else []
       | .boolean _ => []
       | _ => ["ICMP code is out of range."]) ++
      (if ¬icmpTypePresent then ["ICMP code specified without ICMP type."]
       else [])
  let unknownIssues :=
    if (kvs.map Prod.fst).filter (fun k => k ∉ KNOWN_RULE_KEYS) = [] then []
    else ["Rule contains unknown keys."]
  mismatchIssues ++ netIssues ++ rulePortsIssues rule "src_ports" ++
    rulePortsIssues rule "dst_ports" ++ actionIssues ++ icmpTypeIssues ++
    icmpCodeIssues ++ unknownIssues

/-- One rule record's issues (fetcd.py lines 499-563); `none` when checking
the rule raises (`rule.get` on a non-dict is an `AttributeError`). -/
def validateRule (rule : JVal) : Option (List String) :=
  match rule with
  | .obj kvs =>
    let protocolIssues :=
      match rule.getNN "protocol" with
      | none => []
      | some (.str p) =>
        if p = "tcp" ∨ p = "udp" ∨ p = "icmp" ∨ p = "icmpv6" then []
        else ["Invalid protocol in rule."]
      | some _ => ["Invalid protocol in rule."]
    -- lines 507-512: a bad ip_version appends an issue and `continue`s to
    -- the next rule, skipping this rule's remaining checks.
    match rule.getNN "ip_version" with
    | some (.num 4) => some (protocolIssues ++ ruleTailIssues rule kvs (some 4))
    | some (.num 6) => some (protocolIssues ++ ruleTailIssues rule kvs (some 6))
    | none => some (protocolIssues ++ ruleTailIssues rule kvs none)
    | some _ => some (protocolIssues ++ ["Invalid ip_version in rule."])
  | _ => none

/-- The issues of one direction's rule list, `none` on a crash. -/
def validateRulesList (rs : List JVal) : Option (List String) :=
  rs.foldl (fun acc r =>
    match acc, validateRule r with
    | some is1, some is2 => some (is1 ++ is2)
    | _, _ => none) (some [])

/-- One direction's check in `validate_rules` (fetcd.py lines 490-497):
missing key or non-list value is an issue and skips the per-rule checks. -/
def rulesDirIssues (rules : JVal) (dirn : String) : Option (List String) :=
  match rules.get dirn with
  | none => some ["No " ++ dirn ++ " in rules."]
  | some (.arr rs) => validateRulesList rs
  | some _ => some ["Expected rules[" ++ dirn ++ "] to be a dict."]

/-- `validate_rules` (fetcd.py lines 476-566). -/
def validate_rules (rules : JVal) : VResult :=
  match rules with
  | .obj _ =>
    (match rulesDirIssues rules "inbound_rules",
           rulesDirIssues rules "outbound_rules" with
     | some is1, some is2 =>
       if is1 ++ is2 = [] then .ok
       else .failed (String.intercalate " " (is1 ++ is2))
     | _, _ => .crashed)
  | _ => .failed "Expected rules to be a dict."

/-- `validate_tags` (fetcd.py lines 625-645). -/
def validate_tags (tags : JVal) : VResult :=
  match tags with
  | .arr ts =>
    if ts.all (fun t => match t with | .str _ => true | _ => false) then .ok
    else .failed "Expected tag to be a string."
  | _ => .failed "Expected tags to be a list."

/-- `Modelled from the spec` §6 datastore layout (the key regexes live in
datamodel_v1, outside the provided sources): which pattern an etcd key
matches, with the captured groups. -/
inductive EtcdKey where
  | endpointKey (hostname orchestrator workload_id endpoint_id : String)
  | rulesKey (profile_id : String)
  | tagsKey (profile_id : String)
  | other (raw : String)

/-- An etcd event as the parse functions see it: the matched key, the
event action and the (already JSON-decoded) payload. -/
structure EtcdNode where
  key : EtcdKey
  action : String
  value : JVal

/-- `parse_if_endpoint` (fetcd.py lines 372-393).  `Except.error` stands
for an exception escaping the function (only `ValidationFailed` is
caught). -/
def parse_if_endpoint (config : FelixConfig) (node : EtcdNode) :
    Except Unit (Option String × Option JVal) :=
  match node.key with
  | .endpointKey hostname _ _ endpoint_id =>
    if node.action = "delete" then .ok (some endpoint_id, none)
    else
      match validate_endpoint config node.value with
      | .ok =>
        (match (node.value.setKey "host" (.str hostname)).bind
               (fun v => v.setKey "id" (.str endpoint_id)) with
         | some enriched => .ok (some endpoint_id, some enriched)
         | none => .error ())
      | .failed _ => .ok (some endpoint_id, none)
      | .crashed => .error ()
  | _ => .ok (none, none)

/-- `parse_if_rules` (fetcd.py lines 453-473).  Note `rules["id"] =
profile_id` runs before validation: on a non-dict payload it raises
`TypeError`, which is not caught. -/
def parse_if_rules (node : EtcdNode) :
    Except Unit (Option String × Option JVal) :=
  match node.key with
  | .rulesKey profile_id =>
    if node.action = "delete" then .ok (some profile_id, none)
    else
      match node.value.setKey "id" (.str profile_id) with
      | none => .error ()
      | some rules =>
        match validate_rules rules with
        | .ok => .ok (some profile_id, some rules)
        | .failed _ => .ok (some profile_id, none)
        | .crashed => .error ()
  | _ => .ok (none, none)

/-- `parse_if_tags` (fetcd.py lines 603-622). -/
def parse_if_tags (node : EtcdNode) :
    Except Unit (Option String × Option JVal) :=
  match node.key with
  | .tagsKey profile_id =>
    if node.action = "delete" then .ok (some profile_id, none)
    else
      match validate_tags node.value with
      | .ok => .ok (some profile_id, some node.value)
      | .failed _ => .ok (some profile_id, none)
      | .crashed => .error ()
  | _ => .ok (none, none)

/-! ## Concrete scenario inputs used by counterexamples and witnesses -/

/-- A local endpoint record on host "H". -/
def epLocal : EpmEndpoint :=
  { host := "H", name := "tap1", state := "active",
    mac := "aa:bb:cc:dd:ee:ff", profile_id := "prof",
    nets := ["10.0.0.1/32"] }

/-- The same endpoint after its host field moves to another hostname. -/
def epMoved : EpmEndpoint :=
  { host := "otherhost", name := "tap1", state := "active",
    mac := "aa:bb:cc:dd:ee:ff", profile_id := "prof",
    nets := ["10.0.0.1/32"] }

/-- The endpoint manager's state after first seeing `epLocal`. -/
def epmStateAfterLocal : EndpointMgrState :=
  (epmOnEndpointUpdate "H" initEndpointMgr "e1" (some epLocal)).1

/-- A ready LocalEndpoint whose last chain write failed (latch set). -/
def lepFailedReady : LocalEndpointState :=
  { endpoint := some epLocal, ifaceName := some "tap1",
    suffix := some "1", failed := true }

/-- Two endpoints sharing the IP 10.0.0.1 reach tag "T" through two
different profiles; dropping the tag from one profile then strips the
shared IP from the tag's ipset even though the other endpoint still
carries it. -/
def sharedIpMsgs : List IpsetMgrMsg :=
  [.tagsUpdate "p" (some ["T"]),
   .tagsUpdate "q" (some ["T"]),
   .endpointUpdate "e1" (some { profile_id := "p", nets := ["10.0.0.1"] }),
   .endpointUpdate "e2" (some { profile_id := "q", nets := ["10.0.0.1"] }),
   .createIpset "T",
   .tagsUpdate "p" (some [])]

/-- A benign message sequence: one profile, one endpoint, one live tag. -/
def seedMsgs : List IpsetMgrMsg :=
  [.tagsUpdate "p" (some ["T"]),
   .endpointUpdate "e1" (some { profile_id := "p", nets := ["10.0.0.1"] }),
   .createIpset "T"]

/-! ## The IpsetManager correctness invariant (claim C1) -/

/-- Every stored endpoint is one of the allowed pairs `M` and carries a
non-empty profile id. -/
def StoredOk (M : List (String × TagEndpoint)) (st : IpsetMgrState) : Prop :=
  ∀ id e, st.endpointsByEpId id = some e → (id, e) ∈ M ∧ e.profile_id ≠ ""

/-- `endpoint_ids_by_tag` is exactly the set of endpoints whose current
profile's tag list carries the tag. -/
def IdxTagOk (st : IpsetMgrState) : Prop :=
  ∀ T id, id ∈ st.endpointIdsByTag T ↔
    ∃ e, st.endpointsByEpId id = some e ∧ T ∈ profTags st e.profile_id

/-- `endpoint_ids_by_profile_id` is exactly the set of endpoints currently
stored with that profile. -/
def IdxProfOk (st : IpsetMgrState) : Prop :=
  ∀ p id, id ∈ st.endpointIdsByProfileId p ↔
    ∃ e, st.endpointsByEpId id = some e ∧ e.profile_id = p

/-- Every starting-or-live ipset's intended members are the spec's
semantic membership. -/
def LiveOk (st : IpsetMgrState) : Prop :=
  ∀ T m, st.live T = some m → ∀ ip, ip ∈ m ↔ semMember st T ip

/-- The inductive invariant of the IpsetManager state machine. -/
structure MgrInv (M : List (String × TagEndpoint)) (st : IpsetMgrState) :
    Prop where
  stored : StoredOk M st
  idxTag : IdxTagOk st
  idxProf : IdxProfOk st
  liveOk : LiveOk st

/-- The amended claim's side conditions on the endpoints a message
sequence mentions: non-empty profile ids, and no IP shared between two
distinct endpoints. -/
def GoodMentions (M : List (String × TagEndpoint)) : Prop :=
  (∀ pr ∈ M, pr.2.profile_id ≠ "") ∧
  (∀ pr1 ∈ M, ∀ pr2 ∈ M, pr1.1 ≠ pr2.1 →
     pr1.2.ips ∩ pr2.2.ips = ∅)

/-- `ip` belongs to some stored endpoint of profile `p`. -/
def ProfContrib (st : IpsetMgrState) (p ip : String) : Prop :=
  ∃ id e, st.endpointsByEpId id = some e ∧ e.profile_id = p ∧ ip ∈ e.ips

/-- `ip` belongs to some stored endpoint, other than `exceptId`, whose
profile's tags carry `T`. -/
def OthersContrib (st : IpsetMgrState) (exceptId T ip : String) : Prop :=
  ∃ id e, id ≠ exceptId ∧ st.endpointsByEpId id = some e ∧
    T ∈ profTags st e.profile_id ∧ ip ∈ e.ips

/-- `ip` belongs to some stored endpoint of a profile other than `p`
whose tags carry `T`. -/
def OtherProfContrib (st : IpsetMgrState) (p T ip : String) : Prop :=
  ∃ id e, st.endpointsByEpId id = some e ∧ e.profile_id ≠ p ∧
    T ∈ profTags st e.profile_id ∧ ip ∈ e.ips

namespace ActiveIpset

/-- The first component of `notifyStep` always has `notified_ready` set. -/
theorem notifiedReady_notifyStep (s : ActiveIpset) (acts : List IpsetAction) :
    (notifyStep s acts).1.notifiedReady = true := by
  simp only [notifyStep]
  split_ifs with h <;> simp_all

/-- `notifyStep` appends `notifyReady` exactly when ready was not yet
notified. -/
theorem notifyReady_mem_notifyStep_iff {s : ActiveIpset}
    {acts : List IpsetAction} (hna : IpsetAction.notifyReady ∉ acts) :
    (IpsetAction.notifyReady ∈ (notifyStep s acts).2 ↔
      s.notifiedReady = false) := by
  simp only [notifyStep]
  split_ifs with h <;> simp_all

/-- Any action in the output of `notifyStep` is an input action or the
ready notification. -/
theorem mem_notifyStep_acts {s : ActiveIpset} {acts : List IpsetAction}
    {a : IpsetAction} (h : a ∈ (notifyStep s acts).2) :
    a ∈ acts ∨ a = IpsetAction.notifyReady := by
  simp only [notifyStep] at h
  split_ifs at h <;> simp_all

/-- `notifyStep` keeps every input action. -/
theorem mem_acts_notifyStep {s : ActiveIpset} {acts : List IpsetAction}
    {a : IpsetAction} (h : a ∈ acts) : a ∈ (notifyStep s acts).2 := by
  simp only [notifyStep]
  split_ifs <;> simp_all

/-- Closed-form characterization of `_finish_msg_batch`. -/
theorem finish_msg_batch_eq (s : ActiveIpset) (syncOk : Bool) :
    finish_msg_batch s syncOk =
      if s.stopped = false ∧ some s.members ≠ s.programmed then
        if syncOk then
          .ok (notifyStep { s with programmed := some s.members }
                 [.checkCallRestore (syncLines s (s.members.sort (· ≤ ·)))])
        else
          .error (s, [.checkCallRestore (syncLines s (s.members.sort (· ≤ ·)))])
      else .ok (notifyStep s []) := by
  simp only [finish_msg_batch, sync_to_ipset]
  by_cases h1 : s.stopped
  · simp [h1]
  · by_cases h2 : some s.members = s.programmed
    · simp [h1, h2]
    · cases syncOk <;> simp [h1, h2, Except.bind]

/-- C10: `add_member` is idempotent; `remove_member` of an absent member
leaves the state unchanged (the `KeyError` is swallowed, so no error is
raised — the Lean model is a total function); neither operation touches
`programmed_members`, `stopped` or `notified_ready`. -/
theorem member_ops_algebra (s : ActiveIpset) (m : String) :
    (s.add_member m).add_member m = s.add_member m ∧
    (m ∉ s.members → s.remove_member m = s) ∧
    (s.add_member m).programmed = s.programmed ∧
    (s.add_member m).stopped = s.stopped ∧
    (s.add_member m).notifiedReady = s.notifiedReady ∧
    (s.remove_member m).programmed = s.programmed ∧
    (s.remove_member m).stopped = s.stopped ∧
    (s.remove_member m).notifiedReady = s.notifiedReady := by
  refine ⟨?_, fun hm => ?_, ?_, ?_, ?_, rfl, rfl, rfl⟩
  · by_cases h : m ∈ s.members <;> simp [add_member, h]
  · simp [remove_member, Finset.erase_eq_of_not_mem hm]
  all_goals by_cases h : m ∈ s.members <;> simp [add_member, h]

/-- Witness for `member_ops_algebra` at a concrete state and member. -/
theorem member_ops_algebra_witness :
    "10.0.0.1" ∉ (init "tag" IpType.v4).members ∧
    ((init "tag" IpType.v4).remove_member "10.0.0.1" = init "tag" IpType.v4) :=
  ⟨by decide, ((member_ops_algebra (init "tag" IpType.v4) "10.0.0.1").2.1 (by decide))⟩

/-- C5: every synchronization issues exactly one `ipset restore` transaction
whose lines are, in order: create the main set if absent, create the temp set
if absent, flush the temp set, add every intended member to the temp set,
swap main and temp, destroy the temp set, COMMIT; both create lines declare
`hash:ip` with family `inet` (IPv4) / `inet6` (IPv6); a successful batch sets
`programmed_members` to the intended members (and a failed one leaves state
unchanged). -/
theorem sync_to_ipset_protocol (s : ActiveIpset) (syncOk : Bool) :
    ∃ memberList : List String,
      memberList.toFinset = s.members ∧
      (let lines :=
        ["create " ++ s.name ++ " hash:ip family " ++ s.family ++ " --exist",
         "create " ++ s.tmpname ++ " hash:ip family " ++ s.family ++ " --exist",
         "flush " ++ s.tmpname]
        ++ memberList.map (fun m => "add " ++ s.tmpname ++ " " ++ m)
        ++ ["swap " ++ s.name ++ " " ++ s.tmpname,
            "destroy " ++ s.tmpname,
            "COMMIT"]
       sync_to_ipset s syncOk =
         if syncOk then
           .ok ({ s with programmed := some s.members },
                [.checkCallRestore lines])
         else .error (s, [.checkCallRestore lines])) ∧
      s.family = (if s.ipType = IpType.v4 then "inet" else "inet6") ∧
      s.name = IPSET_PREFIX s.ipType ++ s.tag ∧
      s.tmpname = IPSET_TMP_PREFIX s.ipType ++ s.tag := by
  refine ⟨s.members.sort (· ≤ ·), Finset.sort_toFinset _ _, ?_, rfl, rfl, rfl⟩
  cases syncOk <;> rfl

/-- C4 counterexample: with the `stopped` flag set (and ready not yet
notified), `_finish_msg_batch` does *not* do nothing — it still flips
`notified_ready` and signals ready. -/
theorem finish_msg_batch_stopped_not_inert :
    (finish_msg_batch stoppedFresh true =
      .ok ({ tag := "t", ipType := IpType.v4, members := ∅, programmed := none,
             notifiedReady := true, stopped := true },
           [IpsetAction.notifyReady])) ∧
    ¬(finish_msg_batch stoppedFresh true = .ok (stoppedFresh, [])) := by
  refine ⟨rfl, fun h => ?_⟩
  rw [show finish_msg_batch stoppedFresh true =
        .ok ({ tag := "t", ipType := IpType.v4, members := ∅,
               programmed := none, notifiedReady := true, stopped := true },
             [IpsetAction.notifyReady]) from rfl] at h
  simp only [Except.ok.injEq, Prod.mk.injEq] at h
  exact List.cons_ne_nil _ _ h.2

/-- C4 (amended): if `stopped`, no synchronization happens and
`intended`/`programmed` members are untouched, but the ready notification is
still signalled on the first completed batch; if not stopped, it synchronizes
iff the intended members differ from the programmed members; ready is
signalled exactly once, on the first batch that completes without raising
(a batch whose sync raises does not signal ready and leaves the members
state unchanged). -/
theorem finish_msg_batch_spec (s : ActiveIpset) (syncOk : Bool) :
    (s.stopped = true →
       finish_msg_batch s syncOk = .ok (notifyStep s [])) ∧
    (s.stopped = false →
       ((∃ lines, IpsetAction.checkCallRestore lines ∈
           batchActs (finish_msg_batch s syncOk)) ↔
         some s.members ≠ s.programmed)) ∧
    (∀ s' acts, finish_msg_batch s syncOk = .ok (s', acts) →
       (IpsetAction.notifyReady ∈ acts ↔ s.notifiedReady = false) ∧
       s'.notifiedReady = true) ∧
    (∀ s' acts, finish_msg_batch s syncOk = .error (s', acts) →
       IpsetAction.notifyReady ∉ acts ∧
       s'.notifiedReady = s.notifiedReady ∧
       s'.programmed = s.programmed ∧
       s'.members = s.members) := by
  have key := finish_msg_batch_eq s syncOk
  refine ⟨?_, ?_, ?_, ?_⟩
  · intro hstop
    rw [key]
    simp [hstop]
  · intro hstop
    rw [key]
    by_cases hne : some s.members = s.programmed
    · simp only [hstop, hne, ne_eq, not_true_eq_false, and_false, if_false,
        iff_false, not_exists]
      intro lines hmem
      rcases mem_notifyStep_acts hmem with h | h
      · exact absurd h (by simp)
      · exact absurd h (by simp)
    · cases syncOk <;>
        simp only [hstop, hne, ne_eq, not_false_eq_true, and_true, if_true,
          Bool.false_eq_true, if_false, batchActs, iff_true]
      · exact ⟨_, List.mem_singleton.mpr rfl⟩
      · exact ⟨_, mem_acts_notifyStep (List.mem_singleton.mpr rfl)⟩
  · intro s' acts h
    rw [key] at h
    split_ifs at h with h1 h2
    · simp only [Except.ok.injEq] at h
      obtain ⟨hs, ha⟩ : _ = s' ∧ _ = acts :=
        ⟨congrArg Prod.fst h, congrArg Prod.snd h⟩
      rw [← hs, ← ha]
      exact ⟨notifyReady_mem_notifyStep_iff (by simp),
             notifiedReady_notifyStep _ _⟩
    · simp only [Except.ok.injEq] at h
      obtain ⟨hs, ha⟩ : _ = s' ∧ _ = acts :=
        ⟨congrArg Prod.fst h, congrArg Prod.snd h⟩
      rw [← hs, ← ha]
      exact ⟨notifyReady_mem_notifyStep_iff (by simp),
             notifiedReady_notifyStep _ _⟩
  · intro s' acts h
    rw [key] at h
    split_ifs at h with h1 h2
    · simp only [Except.error.injEq] at h
      obtain ⟨hs, ha⟩ : _ = s' ∧ _ = acts :=
        ⟨congrArg Prod.fst h, congrArg Prod.snd h⟩
      rw [← hs, ← ha]
      exact ⟨by simp, rfl, rfl, rfl⟩

end ActiveIpset

/-- Membership in the whitelist accumulated over the children. -/
theorem mem_whitelist_foldl (children : List ActiveIpset) (w0 : Finset String)
    (n : String) :
    n ∈ children.foldl (fun w c => w ∪ c.owned_ipset_names) w0 ↔
      n ∈ w0 ∨ ∃ c ∈ children, n ∈ c.owned_ipset_names := by
  induction children generalizing w0 with
  | nil => simp
  | cons c cs ih =>
    simp only [List.foldl_cons, ih, Finset.mem_union, List.mem_cons]
    constructor
    · rintro (⟨h | h⟩ | ⟨c', hc', hn⟩)
      · exact Or.inl h
      · exact Or.inr ⟨c, Or.inl rfl, h⟩
      · exact Or.inr ⟨c', Or.inr hc', hn⟩
    · rintro (h | ⟨c', hc' | hc', hn⟩)
      · exact Or.inl (Or.inl h)
      · exact Or.inl (Or.inr (hc' ▸ hn))
      · exact Or.inr ⟨c', hc', hn⟩

/-- C7: `cleanup` destroys exactly the kernel ipsets named with this
family's main or temp prefix that no live or stopping child owns; anything
outside those prefixes, and every whitelisted (owned) name, survives. -/
theorem cleanup_destroys_exactly (ip_type : IpType) (all_ipsets : List String)
    (children : List ActiveIpset) (n : String) :
    n ∈ cleanup ip_type all_ipsets children ↔
      (n ∈ all_ipsets ∧
       (n.startsWith (IPSET_PREFIX ip_type) = true ∨
        n.startsWith (IPSET_TMP_PREFIX ip_type) = true) ∧
       ∀ c ∈ children, n ∉ c.owned_ipset_names) := by
  simp only [cleanup, Finset.mem_sdiff, List.mem_toFinset, List.mem_filter,
    mem_whitelist_foldl, Finset.not_mem_empty, false_or, not_exists,
    Bool.or_eq_true]
  tauto

/-- C6: in the from-endpoint chain, after a fixed preamble there is one
rule per endpoint IP `--goto`ing the profile-outbound chain while matching
that source CIDR and the upper-cased MAC, and the chain ends with the
anti-spoof DROP rule; a bare IP is normalized to /32 (IPv4) or /128
(IPv6), while an IP containing "/" is used as-is. -/
theorem from_chain_structure (suffix iface : String) (ip_version : Nat)
    (local_ips : List String) (mac profile_id : String) :
    (∃ pre,
      (getEndpointRules suffix iface ip_version local_ips mac
        profile_id).fromChain =
        pre ++ local_ips.map (fun ip =>
          "--append " ++ CHAIN_FROM_PREFIX ++ suffix ++ " --src " ++
          cidrOfIp ip_version ip ++ " --match mac --mac-source " ++
          strUpper mac ++ " --goto " ++
          profile_to_chain_name "outbound" profile_id)
        ++ [commented_drop_fragment (CHAIN_FROM_PREFIX ++ suffix)
              "Anti-spoof DROP:"]) ∧
    (∀ ip, containsSlash ip = true → cidrOfIp ip_version ip = ip) ∧
    (∀ ip, containsSlash ip = false →
       cidrOfIp ip_version ip =
         ip ++ (if ip_version = 4 then "/32" else "/128")) := by
  refine ⟨⟨["--flush " ++ CHAIN_FROM_PREFIX ++ suffix]
      ++ (if ip_version = 6 then
           ["--append " ++ CHAIN_FROM_PREFIX ++ suffix ++
              " --protocol ipv6-icmp"]
          else [])
      ++ ["--append " ++ CHAIN_FROM_PREFIX ++ suffix ++
            " --match conntrack --ctstate INVALID --jump DROP",
          "--append " ++ CHAIN_FROM_PREFIX ++ suffix ++
            " --match conntrack --ctstate RELATED,ESTABLISHED --jump RETURN"]
      ++ (if ip_version = 4 then
           ["--append " ++ CHAIN_FROM_PREFIX ++ suffix ++
              " --protocol udp --sport 68 --dport 67 --jump RETURN"]
          else
           ["--append " ++ CHAIN_FROM_PREFIX ++ suffix ++
              " --protocol udp --sport 546 --dport 547 --jump RETURN"]), ?_⟩,
    ?_, ?_⟩
  · simp [getEndpointRules, chain_names, List.append_assoc,
      String.append_assoc]
  · intro ip h
    simp [cidrOfIp, h]
  · intro ip h
    simp only [cidrOfIp, h, Bool.false_eq_true, if_false]
    split_ifs <;> simp_all

/-- C9 counterexample: a profile-rules payload that is valid JSON but not
an object *fails validation* ("Expected rules to be a dict."), yet
`parse_if_rules` raises (a `TypeError` at `rules["id"] = profile_id`, which
runs before validation and is not caught) instead of returning the id
paired with None. -/
theorem parse_rules_nondict_crashes :
    validate_rules (JVal.arr []) = .failed "Expected rules to be a dict." ∧
    parse_if_rules { key := .rulesKey "p1", action := "set",
                     value := JVal.arr [] } = .error () ∧
    (Except.error () : Except Unit (Option String × Option JVal)) ≠
      .ok (some "p1", none) :=
  ⟨rfl, rfl, by simp⟩

/-- C9 (amended): a deletion yields `(id, None)`; and a payload whose
validation raises `ValidationFailed` also yields `(id, None)` — for
endpoints and tags unconditionally, for profile rules provided the payload
is a JSON object (a non-object rules payload instead raises `TypeError`
before validation, and an endpoint payload whose name is present but not a
string raises `AttributeError` inside validation). -/
theorem validation_failure_reported_as_deletion (config : FelixConfig)
    (node : EtcdNode) :
    (∀ hn o w id msg, node.key = .endpointKey hn o w id →
       node.action ≠ "delete" →
       validate_endpoint config node.value = .failed msg →
       parse_if_endpoint config node = .ok (some id, none)) ∧
    (∀ id rules msg, node.key = .rulesKey id → node.action ≠ "delete" →
       node.value.setKey "id" (.str id) = some rules →
       validate_rules rules = .failed msg →
       parse_if_rules node = .ok (some id, none)) ∧
    (∀ id msg, node.key = .tagsKey id → node.action ≠ "delete" →
       validate_tags node.value = .failed msg →
       parse_if_tags node = .ok (some id, none)) ∧
    (∀ hn o w id, node.key = .endpointKey hn o w id →
       node.action = "delete" →
       parse_if_endpoint config node = .ok (some id, none)) ∧
    (∀ id, node.key = .rulesKey id → node.action = "delete" →
       parse_if_rules node = .ok (some id, none)) ∧
    (∀ id, node.key = .tagsKey id → node.action = "delete" →
       parse_if_tags node = .ok (some id, none)) := by
  refine ⟨?_, ?_, ?_, ?_, ?_, ?_⟩
  · intro hn o w id msg hkey hact hval
    simp [parse_if_endpoint, hkey, hact, hval]
  · intro id rules msg hkey hact hset hval
    simp [parse_if_rules, hkey, hact, hset, hval]
  · intro id msg hkey hact hval
    simp [parse_if_tags, hkey, hact, hval]
  · intro hn o w id hkey hact
    simp [parse_if_endpoint, hkey, hact]
  · intro id hkey hact
    simp [parse_if_rules, hkey, hact]
  · intro id hkey hact
    simp [parse_if_tags, hkey, hact]

/-- Witness for `validation_failure_reported_as_deletion`: a non-dict
endpoint payload fails validation and is parsed as a deletion. -/
theorem validation_failure_reported_as_deletion_witness :
    validate_endpoint { HOSTNAME := "H", IFACE_PREFIX := "tap" } JVal.null =
      .failed "Expected endpoint to be a dict." ∧
    parse_if_endpoint { HOSTNAME := "H", IFACE_PREFIX := "tap" }
      { key := .endpointKey "H" "orch" "wl" "e1", action := "set",
        value := JVal.null } = .ok (some "e1", none) :=
  ⟨rfl,
   (validation_failure_reported_as_deletion
      { HOSTNAME := "H", IFACE_PREFIX := "tap" }
      { key := .endpointKey "H" "orch" "wl" "e1", action := "set",
        value := JVal.null }).1 "H" "orch" "wl" "e1"
     "Expected endpoint to be a dict." rfl (by decide) rfl⟩

/-- Deleting an endpoint id leaves `local_endpoint_ids` erased of it when
it was recorded, untouched otherwise. -/
theorem epm_none_localIds (hostname : String) (st : EndpointMgrState)
    (endpoint_id : String) :
    (epmOnEndpointUpdate hostname st endpoint_id none).1.localEndpointIds =
      if endpoint_id ∈ st.localEndpointIds then
        st.localEndpointIds.erase endpoint_id
      else st.localEndpointIds := by
  simp only [epmOnEndpointUpdate]
  rcases st.endpointsById endpoint_id with _ | o
  · by_cases hm : endpoint_id ∈ st.localEndpointIds <;> simp [hm]
  · by_cases hs : (st.endpointIdByIfaceName o.name).isSome <;>
      by_cases hm : endpoint_id ∈ st.localEndpointIds <;> simp [hs, hm]

/-- The actions of an endpoint deletion: the forward (if the child runs)
then the decref (if the endpoint was recorded local). -/
theorem epm_none_acts (hostname : String) (st : EndpointMgrState)
    (endpoint_id : String) :
    (epmOnEndpointUpdate hostname st endpoint_id none).2 =
      (if st.liveChildren endpoint_id then
        [EpmAction.forwardEndpointUpdate endpoint_id none] else []) ++
      (if endpoint_id ∈ st.localEndpointIds then
        [EpmAction.decref endpoint_id] else []) := by
  simp only [epmOnEndpointUpdate]
  rcases st.endpointsById endpoint_id with _ | o
  · by_cases hm : endpoint_id ∈ st.localEndpointIds <;>
      by_cases hl : st.liveChildren endpoint_id <;> simp [hm, hl]
  · by_cases hs : (st.endpointIdByIfaceName o.name).isSome <;>
      by_cases hm : endpoint_id ∈ st.localEndpointIds <;>
      by_cases hl : st.liveChildren endpoint_id <;> simp [hs, hm, hl]

/-- C3 counterexample: endpoint "e1" (host "H") is seen by the manager for
host "H" and increffed; an update moving its host to "otherhost" then
issues no decref (indeed no message at all) and leaves "e1" recorded in
`local_endpoint_ids`. -/
theorem host_change_without_decref :
    (epmOnEndpointUpdate "H" initEndpointMgr "e1" (some epLocal)).2 =
      [EpmAction.getAndIncref "e1"] ∧
    "e1" ∈ epmStateAfterLocal.localEndpointIds ∧
    (epmOnEndpointUpdate "H" epmStateAfterLocal "e1" (some epMoved)).2 = [] ∧
    EpmAction.decref "e1" ∉
      (epmOnEndpointUpdate "H" epmStateAfterLocal "e1" (some epMoved)).2 ∧
    "e1" ∈ (epmOnEndpointUpdate "H" epmStateAfterLocal "e1"
              (some epMoved)).1.localEndpointIds := by
  refine ⟨rfl, ?_, rfl, ?_, ?_⟩ <;> decide

/-- C3 (amended): the first sight of an endpoint whose host equals the
agent's hostname issues `get_and_incref` and records it as local; deleting
a recorded-local endpoint issues `decref` and forgets it; but a host
change to a different hostname issues neither an incref nor a decref and
leaves the endpoint recorded as local — only deletion drops the
reference. -/
theorem epm_refcounting (hostname : String) (st : EndpointMgrState)
    (endpoint_id : String) (ep : EpmEndpoint) :
    (ep.host = hostname → endpoint_id ∉ st.localEndpointIds →
       EpmAction.getAndIncref endpoint_id ∈
         (epmOnEndpointUpdate hostname st endpoint_id (some ep)).2 ∧
       endpoint_id ∈ (epmOnEndpointUpdate hostname st endpoint_id
         (some ep)).1.localEndpointIds) ∧
    (endpoint_id ∈ st.localEndpointIds →
       EpmAction.getAndIncref endpoint_id ∉
         (epmOnEndpointUpdate hostname st endpoint_id (some ep)).2) ∧
    (endpoint_id ∈ st.localEndpointIds →
       EpmAction.decref endpoint_id ∈
         (epmOnEndpointUpdate hostname st endpoint_id none).2 ∧
       endpoint_id ∉ (epmOnEndpointUpdate hostname st endpoint_id
         none).1.localEndpointIds) ∧
    (endpoint_id ∉ st.localEndpointIds →
       EpmAction.decref endpoint_id ∉
         (epmOnEndpointUpdate hostname st endpoint_id none).2) ∧
    (ep.host ≠ hostname → endpoint_id ∈ st.localEndpointIds →
       (∀ a ∈ (epmOnEndpointUpdate hostname st endpoint_id (some ep)).2,
          a = EpmAction.forwardEndpointUpdate endpoint_id (some ep)) ∧
       endpoint_id ∈ (epmOnEndpointUpdate hostname st endpoint_id
         (some ep)).1.localEndpointIds) := by
  refine ⟨?_, ?_, ?_, ?_, ?_⟩
  · intro hh hmem
    by_cases hl : st.liveChildren endpoint_id <;>
      simp [epmOnEndpointUpdate, hh, hmem, hl]
  · intro hmem
    by_cases hl : st.liveChildren endpoint_id <;>
      simp [epmOnEndpointUpdate, hmem, hl]
  · intro hmem
    rw [epm_none_acts, epm_none_localIds]
    simp [hmem]
  · intro hmem
    rw [epm_none_acts]
    simp [hmem]
  · intro hh hmem
    have hcond : ¬(ep.host = hostname ∧ endpoint_id ∉ st.localEndpointIds) :=
      fun hc => hh hc.1
    by_cases hl : st.liveChildren endpoint_id <;>
      simp [epmOnEndpointUpdate, hcond, hl, hmem]

/-- Witness for `epm_refcounting` at a concrete state. -/
theorem epm_refcounting_witness :
    epLocal.host = "H" ∧ "e1" ∉ initEndpointMgr.localEndpointIds ∧
    (EpmAction.getAndIncref "e1" ∈
       (epmOnEndpointUpdate "H" initEndpointMgr "e1" (some epLocal)).2 ∧
     "e1" ∈ (epmOnEndpointUpdate "H" initEndpointMgr "e1"
       (some epLocal)).1.localEndpointIds) :=
  ⟨rfl, by decide,
   (epm_refcounting "H" initEndpointMgr "e1" epLocal).1 rfl (by decide)⟩

/-- C2 counterexample: with the failed latch set on a ready endpoint, a
kick (`on_interface_update`) only re-runs interface configuration — it
programs no chains and leaves the whole state, latch included,
unchanged. -/
theorem kick_does_not_reprogram :
    lepOnInterfaceUpdate lepFailedReady =
      (lepFailedReady, [LepAction.configureInterface]) ∧
    LepAction.configureInterface.isRewriteChains = false ∧
    lepFailedReady.failed = true ∧ lepReady lepFailedReady = true :=
  ⟨rfl, rfl, rfl, rfl⟩

/-- C2 (amended): a failed chain write sets the failed latch and removes
the endpoint's chains; a kick (`on_interface_update`) only retries
interface configuration, leaving state and chains untouched; the forced
re-program instead happens on the next endpoint update: with the latch
set, re-delivering even unchanged endpoint data re-writes the chains
although readiness did not change. -/
theorem failed_write_latch_and_reprogram (config : FelixConfig)
    (ip_version : Nat) (endpoint_id : String) (st : LocalEndpointState) :
    ((lepUpdateChains ip_version st false).1.failed = true ∧
     LepAction.deleteChains (chain_names (st.suffix.getD "")) ∈
       (lepUpdateChains ip_version st false).2) ∧
    (lepOnInterfaceUpdate st = (st, [LepAction.configureInterface])) ∧
    (st.failed = true → lepReady st = true →
       ∃ rules, LepAction.rewriteChains rules ∈
         (lepOnEndpointUpdate config ip_version endpoint_id st st.endpoint
            true).2) := by
  refine ⟨⟨?_, ?_⟩, rfl, ?_⟩
  · simp [lepUpdateChains, lepRemoveChains]
  · simp [lepUpdateChains, lepRemoveChains]
  · intro hfail hready
    rcases he : st.endpoint with _ | e
    · simp [lepReady, lepMissingDeps, he] at hready
    · refine ⟨getEndpointRules (st.suffix.getD "") (st.ifaceName.getD "")
        ip_version e.nets e.mac e.profile_id, ?_⟩
      have hr : lepReady { endpoint := some e,
                           ifaceName := st.ifaceName,
                           suffix := st.suffix,
                           failed := true } = true := by
        simpa [lepReady, lepMissingDeps, he] using hready
      simp [lepOnEndpointUpdate, he, lepMaybeUpdate, hfail, hready,
        lepUpdateChains, hr]

/-- Witness for `failed_write_latch_and_reprogram` at the concrete failed
state. -/
theorem failed_write_latch_and_reprogram_witness :
    lepFailedReady.failed = true ∧ lepReady lepFailedReady = true ∧
    ∃ rules, LepAction.rewriteChains rules ∈
      (lepOnEndpointUpdate { HOSTNAME := "H", IFACE_PREFIX := "tap" } 4 "e1"
        lepFailedReady lepFailedReady.endpoint true).2 :=
  ⟨rfl, rfl,
   (failed_write_latch_and_reprogram { HOSTNAME := "H", IFACE_PREFIX := "tap" }
      4 "e1" lepFailedReady).2.2 rfl rfl⟩

/-- Witness for `ActiveIpset.finish_msg_batch_spec` at the stopped fresh
actor. -/
theorem finish_msg_batch_spec_witness :
    ActiveIpset.stoppedFresh.stopped = true ∧
    ActiveIpset.finish_msg_batch ActiveIpset.stoppedFresh true =
      .ok (ActiveIpset.notifyStep ActiveIpset.stoppedFresh []) :=
  ⟨rfl,
   (ActiveIpset.finish_msg_batch_spec ActiveIpset.stoppedFresh true).1 rfl⟩

/-- Witness for `from_chain_structure`: a bare IPv4 address gains /32. -/
theorem from_chain_structure_witness :
    containsSlash "10.0.0.2" = false ∧
    cidrOfIp 4 "10.0.0.2" = "10.0.0.2" ++ "/32" :=
  ⟨by decide, by
    have h := (from_chain_structure "sfx" "tap1" 4 ["10.0.0.2"] "aa"
      "prof").2.2 "10.0.0.2" (by decide)
    simpa using h⟩

/-- The snapshot's iface map is the filtered, name-keyed image of the
snapshot. -/
theorem localIfaceMap_eq (hostname : String)
    (snap : List (String × EpmEndpoint)) :
    localIfaceMap hostname snap =
      (snap.filter (fun pr =>
        decide (pr.2.host = hostname ∧ pr.2.name ≠ ""))).map
        (fun pr => (pr.2.name, pr.1)) := by
  suffices h : ∀ acc, snap.foldl (fun m pr =>
      if pr.2.host = hostname ∧ pr.2.name ≠ "" then m ++ [(pr.2.name, pr.1)]
      else m) acc =
      acc ++ (snap.filter (fun pr =>
        decide (pr.2.host = hostname ∧ pr.2.name ≠ ""))).map
        (fun pr => (pr.2.name, pr.1)) by
    simpa [localIfaceMap] using h []
  induction snap with
  | nil => simp
  | cons p rest ih =>
    intro acc
    by_cases hp : p.2.host = hostname ∧ p.2.name ≠ "" <;>
      simp [hp, ih, List.filter_cons]

/-- Any binding of the snapshot iface map comes from a qualifying
snapshot entry with that name. -/
theorem localIfaceMap_find_sound (hostname : String)
    (snap : List (String × EpmEndpoint)) (iface id : String)
    (h : assocFind (localIfaceMap hostname snap) iface = some id) :
    ∃ ep, (id, ep) ∈ snap ∧ ep.host = hostname ∧ ep.name = iface ∧
      ep.name ≠ "" := by
  rw [localIfaceMap_eq] at h
  simp only [assocFind, Option.map_eq_some'] at h
  obtain ⟨pr, hfind, hsnd⟩ := h
  have hpred := List.find?_some hfind
  have hmem := List.mem_of_find?_eq_some hfind
  rw [List.mem_reverse] at hmem
  obtain ⟨pr0, hpr0mem, hmap⟩ := List.mem_map.mp hmem
  obtain ⟨hpr0snap, hq⟩ := List.mem_filter.mp hpr0mem
  have hq' : pr0.2.host = hostname ∧ pr0.2.name ≠ "" := of_decide_eq_true hq
  have h1 : pr0.2.name = pr.1 := congrArg Prod.fst hmap
  have h2 : pr0.1 = pr.2 := congrArg Prod.snd hmap
  refine ⟨pr0.2, ?_, hq'.1, ?_, hq'.2⟩
  · have : (pr0.1, pr0.2) = pr0 := rfl
    rw [← hsnd, ← h2]
    exact this ▸ hpr0snap
  · rw [h1]
    exact of_decide_eq_true hpred

/-- C8: in `apply_snapshot` the dispatch-chains snapshot message is the
first message emitted, before any endpoint update (and hence before any
`get_and_incref`-driven endpoint start) is delegated; and the pushed map
holds exactly the iface-name → endpoint-id bindings of the snapshot's
endpoints whose host is the agent's hostname and that have a name. -/
theorem apply_snapshot_dispatch_first (hostname : String)
    (st : EndpointMgrState) (snap : List (String × EpmEndpoint)) :
    (∃ rest, (epmApplySnapshot hostname st snap).2 =
       EpmAction.dispatchSnapshot (localIfaceMap hostname snap) :: rest) ∧
    (∀ iface id, assocFind (localIfaceMap hostname snap) iface = some id →
       ∃ ep, (id, ep) ∈ snap ∧ ep.host = hostname ∧ ep.name = iface ∧
         ep.name ≠ "") ∧
    (∀ id ep, (id, ep) ∈ snap → ep.host = hostname → ep.name ≠ "" →
       ∃ id' ep',
         assocFind (localIfaceMap hostname snap) ep.name = some id' ∧
         (id', ep') ∈ snap ∧ ep'.host = hostname ∧ ep'.name = ep.name) := by
  refine ⟨⟨_, rfl⟩, localIfaceMap_find_sound hostname snap, ?_⟩
  intro id ep hmem hh hn
  have hge : (id, ep) ∈ snap.filter (fun pr =>
      decide (pr.2.host = hostname ∧ pr.2.name ≠ "")) :=
    List.mem_filter.mpr ⟨hmem, by simp [hh, hn]⟩
  have hmapmem : (ep.name, id) ∈ (snap.filter (fun pr =>
      decide (pr.2.host = hostname ∧ pr.2.name ≠ ""))).map
      (fun pr => (pr.2.name, pr.1)) := by
    exact List.mem_map.mpr ⟨(id, ep), hge, rfl⟩
  have hrev : (ep.name, id) ∈ ((snap.filter (fun pr =>
      decide (pr.2.host = hostname ∧ pr.2.name ≠ ""))).map
      (fun pr => (pr.2.name, pr.1))).reverse := List.mem_reverse.mpr hmapmem
  have hsome : (((snap.filter (fun pr =>
      decide (pr.2.host = hostname ∧ pr.2.name ≠ ""))).map
      (fun pr => (pr.2.name, pr.1))).reverse.find?
      (fun pr => pr.1 = ep.name)).isSome :=
    List.find?_isSome.mpr ⟨(ep.name, id), hrev, by simp⟩
  obtain ⟨pr, hfind⟩ := Option.isSome_iff_exists.mp hsome
  have : assocFind (localIfaceMap hostname snap) ep.name = some pr.2 := by
    rw [localIfaceMap_eq]
    simp only [assocFind, hfind, Option.map_some']
  obtain ⟨ep', hmem', hh', hname', _⟩ :=
    localIfaceMap_find_sound hostname snap ep.name pr.2 this
  exact ⟨pr.2, ep', this, hmem', hh', hname'⟩

/-- Witness for `apply_snapshot_dispatch_first` on a one-entry snapshot. -/
theorem apply_snapshot_dispatch_first_witness :
    (∃ rest, (epmApplySnapshot "H" initEndpointMgr [("e1", epLocal)]).2 =
       EpmAction.dispatchSnapshot (localIfaceMap "H" [("e1", epLocal)]) ::
         rest) ∧
    (∃ id' ep',
       assocFind (localIfaceMap "H" [("e1", epLocal)]) epLocal.name =
         some id' ∧
       (id', ep') ∈ [("e1", epLocal)] ∧ ep'.host = "H" ∧
       ep'.name = epLocal.name) :=
  ⟨(apply_snapshot_dispatch_first "H" initEndpointMgr [("e1", epLocal)]).1,
   (apply_snapshot_dispatch_first "H" initEndpointMgr
      [("e1", epLocal)]).2.2 "e1" epLocal (by simp) rfl (by decide)⟩

/-! ## C1: the IpsetManager membership invariant -/

theorem updFn_self {α : Type} (f : String → α) (k : String) (v : α) :
    updFn f k v k = v := by
  simp [updFn]

theorem updFn_ne {α : Type} (f : String → α) (k : String) (v : α)
    {x : String} (h : x ≠ k) : updFn f k v x = f x := by
  simp [updFn, h]

theorem epIdIps_stored {st : IpsetMgrState} {id : String} {e : TagEndpoint}
    (he : st.endpointsByEpId id = some e) : epIdIps st id = e.ips := by
  simp [epIdIps, he]

/-- Under the no-shared-IP condition, an IP determines its endpoint. -/
theorem stored_ip_unique {M : List (String × TagEndpoint)}
    (hgood : GoodMentions M) {st : IpsetMgrState} (hstored : StoredOk M st)
    {id1 id2 : String} {e1 e2 : TagEndpoint} {ip : String}
    (h1 : st.endpointsByEpId id1 = some e1)
    (h2 : st.endpointsByEpId id2 = some e2)
    (hip1 : ip ∈ e1.ips) (hip2 : ip ∈ e2.ips) : id1 = id2 ∧ e1 = e2 := by
  by_cases h : id1 = id2
  · subst h
    rw [h1] at h2
    exact ⟨rfl, Option.some.inj h2⟩
  · exfalso
    have m1 := (hstored id1 e1 h1).1
    have m2 := (hstored id2 e2 h2).1
    have hd : Disjoint e1.ips e2.ips :=
      Finset.disjoint_iff_inter_eq_empty.mpr (hgood.2 _ m1 _ m2 h)
    exact absurd hip2 (Finset.disjoint_left.mp hd hip1)

/-- A same-IP witness from another profile excludes one from profile
`p`. -/
theorem otherProf_not_profContrib {M : List (String × TagEndpoint)}
    (hgood : GoodMentions M) {st : IpsetMgrState} (hstored : StoredOk M st)
    {p T ip : String} (ho : OtherProfContrib st p T ip)
    (hp : ProfContrib st p ip) : False := by
  obtain ⟨id1, e1, he1, hne1, _, hip1⟩ := ho
  obtain ⟨id2, e2, he2, heq2, hip2⟩ := hp
  obtain ⟨hid, heq⟩ := stored_ip_unique hgood hstored he1 he2 hip1 hip2
  exact hne1 (heq ▸ heq2)

/-- A same-IP witness from another endpoint excludes the IP from a given
stored endpoint's set. -/
theorem othersContrib_not_mem {M : List (String × TagEndpoint)}
    (hgood : GoodMentions M) {st : IpsetMgrState} (hstored : StoredOk M st)
    {id T ip : String} {o : TagEndpoint}
    (he : st.endpointsByEpId id = some o)
    (ho : OthersContrib st id T ip) : ip ∉ o.ips := by
  intro hip
  obtain ⟨id', e', hne, he', _, hip'⟩ := ho
  obtain ⟨hid, _⟩ := stored_ip_unique hgood hstored he' he hip' hip
  exact hne hid

/-- The profile-contribution set of `_process_tag_updates`. -/
theorem mem_contrib_iff (st : IpsetMgrState) (hP : IdxProfOk st)
    (p ip : String) :
    ip ∈ (st.endpointIdsByProfileId p).biUnion (fun id => epIdIps st id) ↔
      ProfContrib st p ip := by
  simp only [Finset.mem_biUnion]
  constructor
  · rintro ⟨id, hid, hip⟩
    obtain ⟨e, he, hpe⟩ := (hP p id).mp hid
    exact ⟨id, e, he, hpe, by rwa [epIdIps_stored he] at hip⟩
  · rintro ⟨id, e, he, hpe, hip⟩
    exact ⟨id, (hP p id).mpr ⟨e, he, hpe⟩, by rwa [epIdIps_stored he]⟩

/-- Splitting the semantic membership by one profile id. -/
theorem semMember_split_profile (st : IpsetMgrState) (p T ip : String) :
    semMember st T ip ↔
      (T ∈ profTags st p ∧ ProfContrib st p ip) ∨
      OtherProfContrib st p T ip := by
  constructor
  · rintro ⟨id, e, he, hT, hip⟩
    by_cases hq : e.profile_id = p
    · exact Or.inl ⟨hq ▸ hT, id, e, he, hq, hip⟩
    · exact Or.inr ⟨id, e, he, hq, hT, hip⟩
  · rintro (⟨hT, id, e, he, hq, hip⟩ | ⟨id, e, he, _, hT, hip⟩)
    · exact ⟨id, e, he, hq ▸ hT, hip⟩
    · exact ⟨id, e, he, hT, hip⟩

/-- `on_tags_update` leaves the endpoints dict alone. -/
theorem endpoints_onTagsUpdate (st : IpsetMgrState) (p : String)
    (tags : Option (List String)) :
    (onTagsUpdate st p tags).endpointsByEpId = st.endpointsByEpId := by
  cases tags <;> rfl

/-- `on_tags_update` leaves the profile index alone. -/
theorem idxProf_onTagsUpdate (st : IpsetMgrState) (p : String)
    (tags : Option (List String)) :
    (onTagsUpdate st p tags).endpointIdsByProfileId =
      st.endpointIdsByProfileId := by
  cases tags <;> rfl

/-- The stored tag lists after `on_tags_update`. -/
theorem profTags_onTagsUpdate (st : IpsetMgrState) (p : String)
    (tags : Option (List String)) (q : String) :
    profTags (onTagsUpdate st p tags) q =
      if q = p then tags.getD [] else profTags st q := by
  cases tags <;> simp only [onTagsUpdate, profTags, updFn] <;>
    split_ifs <;> rfl

/-- The tag index after `on_tags_update`. -/
theorem idxTag_onTagsUpdate (st : IpsetMgrState) (p : String)
    (tags : Option (List String)) (T : String) :
    (onTagsUpdate st p tags).endpointIdsByTag T =
      if T ∈ (tags.getD []).toFinset \ (profTags st p).toFinset then
        st.endpointIdsByTag T ∪ st.endpointIdsByProfileId p
      else if T ∈ (profTags st p).toFinset \ (tags.getD []).toFinset then
        st.endpointIdsByTag T \ st.endpointIdsByProfileId p
      else st.endpointIdsByTag T := by
  cases tags <;> rfl

/-- The live members after `on_tags_update`. -/
theorem live_onTagsUpdate (st : IpsetMgrState) (p : String)
    (tags : Option (List String)) (T : String) :
    (onTagsUpdate st p tags).live T =
      if T ∈ (tags.getD []).toFinset \ (profTags st p).toFinset then
        (st.live T).map (fun m =>
          m ∪ (st.endpointIdsByProfileId p).biUnion (fun id => epIdIps st id))
      else if T ∈ (profTags st p).toFinset \ (tags.getD []).toFinset then
        (st.live T).map (fun m =>
          m \ (st.endpointIdsByProfileId p).biUnion (fun id => epIdIps st id))
      else st.live T := by
  cases tags <;> rfl

/-- The semantic membership after `on_tags_update`. -/
theorem semMember_onTagsUpdate (st : IpsetMgrState) (p : String)
    (tags : Option (List String)) (T ip : String) :
    semMember (onTagsUpdate st p tags) T ip ↔
      (T ∈ tags.getD [] ∧ ProfContrib st p ip) ∨
      OtherProfContrib st p T ip := by
  constructor
  · rintro ⟨id, e, he, hT, hip⟩
    rw [endpoints_onTagsUpdate] at he
    rw [profTags_onTagsUpdate] at hT
    by_cases hq : e.profile_id = p
    · rw [if_pos hq] at hT
      exact Or.inl ⟨hT, id, e, he, hq, hip⟩
    · rw [if_neg hq] at hT
      exact Or.inr ⟨id, e, he, hq, hT, hip⟩
  · rintro (⟨hT, id, e, he, hq, hip⟩ | ⟨id, e, he, hq, hT, hip⟩)
    · refine ⟨id, e, ?_, ?_, hip⟩
      · rwa [endpoints_onTagsUpdate]
      · rw [profTags_onTagsUpdate, hq, if_pos rfl]
        exact hT
    · refine ⟨id, e, ?_, ?_, hip⟩
      · rwa [endpoints_onTagsUpdate]
      · rwa [profTags_onTagsUpdate, if_neg hq]

/-- `on_tags_update` preserves the manager invariant. -/
theorem mgrInv_onTagsUpdate {M : List (String × TagEndpoint)}
    (hgood : GoodMentions M) (st : IpsetMgrState)
    (p : String) (tags : Option (List String)) (hinv : MgrInv M st) :
    MgrInv M (onTagsUpdate st p tags) := by
  obtain ⟨hstored, hidxT, hidxP, hlive⟩ := hinv
  constructor
  · intro id e he
    rw [endpoints_onTagsUpdate] at he
    exact hstored id e he
  · -- IdxTagOk
    intro T id
    rw [idxTag_onTagsUpdate]
    have hsplit : (∃ e, (onTagsUpdate st p tags).endpointsByEpId id = some e ∧
        T ∈ profTags (onTagsUpdate st p tags) e.profile_id) ↔
        ((T ∈ tags.getD [] ∧ ∃ e, st.endpointsByEpId id = some e ∧
           e.profile_id = p) ∨
         (∃ e, st.endpointsByEpId id = some e ∧ e.profile_id ≠ p ∧
           T ∈ profTags st e.profile_id)) := by
      rw [endpoints_onTagsUpdate]
      constructor
      · rintro ⟨e, he, hT⟩
        rw [profTags_onTagsUpdate] at hT
        by_cases hq : e.profile_id = p
        · rw [if_pos hq] at hT
          exact Or.inl ⟨hT, e, he, hq⟩
        · rw [if_neg hq] at hT
          exact Or.inr ⟨e, he, hq, hT⟩
      · rintro (⟨hT, e, he, hq⟩ | ⟨e, he, hq, hT⟩)
        · exact ⟨e, he, by rw [profTags_onTagsUpdate, hq, if_pos rfl]; exact hT⟩
        · exact ⟨e, he, by rwa [profTags_onTagsUpdate, if_neg hq]⟩
    rw [hsplit]
    have hidx := hidxT T id
    have hprofidx := hidxP p id
    by_cases hA : T ∈ (tags.getD []).toFinset \ (profTags st p).toFinset
    · rw [if_pos hA]
      obtain ⟨hTn, hTo⟩ := Finset.mem_sdiff.mp hA
      rw [List.mem_toFinset] at hTn
      rw [List.mem_toFinset] at hTo
      rw [Finset.mem_union, hidx, hprofidx]
      constructor
      · rintro (⟨e, he, hT⟩ | ⟨e, he, hq⟩)
        · by_cases hq : e.profile_id = p
          · exact absurd (hq ▸ hT) hTo
          · exact Or.inr ⟨e, he, hq, hT⟩
        · exact Or.inl ⟨hTn, e, he, hq⟩
      · rintro (⟨_, e, he, hq⟩ | ⟨e, he, hq, hT⟩)
        · exact Or.inr ⟨e, he, hq⟩
        · exact Or.inl ⟨e, he, hT⟩
    · rw [if_neg hA]
      by_cases hB : T ∈ (profTags st p).toFinset \ (tags.getD []).toFinset
      · rw [if_pos hB]
        obtain ⟨hTo, hTn⟩ := Finset.mem_sdiff.mp hB
        rw [List.mem_toFinset] at hTo
        rw [List.mem_toFinset] at hTn
        rw [Finset.mem_sdiff, hidx, hprofidx]
        constructor
        · rintro ⟨⟨e, he, hT⟩, hnot⟩
          by_cases hq : e.profile_id = p
          · exact absurd ⟨e, he, hq⟩ hnot
          · exact Or.inr ⟨e, he, hq, hT⟩
        · rintro (⟨hT, _⟩ | ⟨e, he, hq, hT⟩)
          · exact absurd hT hTn
          · refine ⟨⟨e, he, hT⟩, ?_⟩
            rintro ⟨e', he', hq'⟩
            rw [he] at he'
            exact hq ((Option.some.inj he') ▸ hq')
      · rw [if_neg hB]
        rw [hidx]
        have hTiff : T ∈ profTags st p ↔ T ∈ tags.getD [] := by
          constructor
          · intro h
            by_contra hn
            exact hB (Finset.mem_sdiff.mpr
              ⟨List.mem_toFinset.mpr h, fun hc => hn (List.mem_toFinset.mp hc)⟩)
          · intro h
            by_contra hn
            exact hA (Finset.mem_sdiff.mpr
              ⟨List.mem_toFinset.mpr h, fun hc => hn (List.mem_toFinset.mp hc)⟩)
        constructor
        · rintro ⟨e, he, hT⟩
          by_cases hq : e.profile_id = p
          · exact Or.inl ⟨hTiff.mp (hq ▸ hT), e, he, hq⟩
          · exact Or.inr ⟨e, he, hq, hT⟩
        · rintro (⟨hT, e, he, hq⟩ | ⟨e, he, hq, hT⟩)
          · exact ⟨e, he, hq ▸ hTiff.mpr hT⟩
          · exact ⟨e, he, hT⟩
  · -- IdxProfOk
    intro q id
    rw [idxProf_onTagsUpdate, endpoints_onTagsUpdate]
    exact hidxP q id
  · -- LiveOk
    intro T m' hm' ip
    rw [live_onTagsUpdate] at hm'
    rw [semMember_onTagsUpdate]
    by_cases hA : T ∈ (tags.getD []).toFinset \ (profTags st p).toFinset
    · rw [if_pos hA] at hm'
      obtain ⟨hTn, hTo⟩ := Finset.mem_sdiff.mp hA
      rw [List.mem_toFinset] at hTn
      rw [List.mem_toFinset] at hTo
      obtain ⟨m, hm, hmap⟩ := Option.map_eq_some'.mp hm'
      subst hmap
      rw [Finset.mem_union, hlive T m hm ip,
        semMember_split_profile st p T ip, mem_contrib_iff st hidxP p ip]
      constructor
      · rintro ((⟨hT, _⟩ | ho) | hS)
        · exact absurd hT hTo
        · exact Or.inr ho
        · exact Or.inl ⟨hTn, hS⟩
      · rintro (⟨_, hS⟩ | ho)
        · exact Or.inr hS
        · exact Or.inl (Or.inr ho)
    · rw [if_neg hA] at hm'
      by_cases hB : T ∈ (profTags st p).toFinset \ (tags.getD []).toFinset
      · rw [if_pos hB] at hm'
        obtain ⟨hTo, hTn⟩ := Finset.mem_sdiff.mp hB
        rw [List.mem_toFinset] at hTo
        rw [List.mem_toFinset] at hTn
        obtain ⟨m, hm, hmap⟩ := Option.map_eq_some'.mp hm'
        subst hmap
        rw [Finset.mem_sdiff, hlive T m hm ip,
          semMember_split_profile st p T ip, mem_contrib_iff st hidxP p ip]
        constructor
        · rintro ⟨h1, hnS⟩
          rcases h1 with ⟨_, hS⟩ | ho
          · exact absurd hS hnS
          · exact Or.inr ho
        · rintro (⟨hT, _⟩ | ho)
          · exact absurd hT hTn
          · refine ⟨Or.inr ho, ?_⟩
            intro hS
            exact otherProf_not_profContrib hgood hstored ho hS
      · rw [if_neg hB] at hm'
        have hTiff : T ∈ profTags st p ↔ T ∈ tags.getD [] := by
          constructor
          · intro h
            by_contra hn
            exact hB (Finset.mem_sdiff.mpr
              ⟨List.mem_toFinset.mpr h, fun hc => hn (List.mem_toFinset.mp hc)⟩)
          · intro h
            by_contra hn
            exact hA (Finset.mem_sdiff.mpr
              ⟨List.mem_toFinset.mpr h, fun hc => hn (List.mem_toFinset.mp hc)⟩)
        rw [hlive T m' hm' ip, semMember_split_profile st p T ip, hTiff]

/-- Splitting the semantic membership at one stored endpoint id. -/
theorem semMember_split_id {st : IpsetMgrState} {id : String}
    {o : TagEndpoint} (ho : st.endpointsByEpId id = some o) (T ip : String) :
    semMember st T ip ↔
      (T ∈ profTags st o.profile_id ∧ ip ∈ o.ips) ∨
      OthersContrib st id T ip := by
  constructor
  · rintro ⟨id', e', he', hT, hip⟩
    by_cases h : id' = id
    · subst h
      rw [ho] at he'
      have he : e' = o := (Option.some.inj he').symm
      subst he
      exact Or.inl ⟨hT, hip⟩
    · exact Or.inr ⟨id', e', h, he', hT, hip⟩
  · rintro (⟨hT, hip⟩ | ⟨id', e', _, he', hT, hip⟩)
    · exact ⟨id, o, ho, hT, hip⟩
    · exact ⟨id', e', he', hT, hip⟩

/-- A deletion for an unknown endpoint is a no-op (lines 196-198). -/
theorem onEndpointDelete_unknown (st : IpsetMgrState) (id : String)
    (ho : st.endpointsByEpId id = none) :
    onEndpointUpdate st id none = st := by
  simp only [onEndpointUpdate, ho]

theorem endpoints_onEndpointDelete (st : IpsetMgrState) (id : String)
    (o : TagEndpoint) (ho : st.endpointsByEpId id = some o) :
    (onEndpointUpdate st id none).endpointsByEpId =
      updFn st.endpointsByEpId id none := by
  simp only [onEndpointUpdate, ho]

theorem profTags_onEndpointDelete (st : IpsetMgrState) (id : String)
    (o : TagEndpoint) (ho : st.endpointsByEpId id = some o) (q : String) :
    profTags (onEndpointUpdate st id none) q = profTags st q := by
  simp only [onEndpointUpdate, ho, profTags]

theorem idxProf_onEndpointDelete (st : IpsetMgrState) (id : String)
    (o : TagEndpoint) (ho : st.endpointsByEpId id = some o) :
    (onEndpointUpdate st id none).endpointIdsByProfileId =
      updFn st.endpointIdsByProfileId o.profile_id
        ((st.endpointIdsByProfileId o.profile_id).erase id) := by
  simp only [onEndpointUpdate, ho]

theorem idxTag_onEndpointDelete (st : IpsetMgrState) (id : String)
    (o : TagEndpoint) (ho : st.endpointsByEpId id = some o)
    (hpne : o.profile_id ≠ "") (T : String) :
    (onEndpointUpdate st id none).endpointIdsByTag T =
      if T ∈ (profTags st o.profile_id).toFinset then
        (st.endpointIdsByTag T).erase id
      else st.endpointIdsByTag T := by
  simp only [onEndpointUpdate, ho, hpne, ne_eq, not_false_eq_true, if_true]

theorem live_onEndpointDelete (st : IpsetMgrState) (id : String)
    (o : TagEndpoint) (ho : st.endpointsByEpId id = some o)
    (hpne : o.profile_id ≠ "") (T : String) :
    (onEndpointUpdate st id none).live T =
      if T ∈ (profTags st o.profile_id).toFinset then
        (st.live T).map (fun m => m \ o.ips)
      else st.live T := by
  simp only [onEndpointUpdate, ho, hpne, ne_eq, not_false_eq_true, if_true]

/-- The semantic membership after a deletion: the other endpoints'
contributions. -/
theorem semMember_onEndpointDelete (st : IpsetMgrState) (id : String)
    (o : TagEndpoint) (ho : st.endpointsByEpId id = some o) (T ip : String) :
    semMember (onEndpointUpdate st id none) T ip ↔
      OthersContrib st id T ip := by
  constructor
  · rintro ⟨id', e', he', hT, hip⟩
    rw [endpoints_onEndpointDelete st id o ho] at he'
    rw [profTags_onEndpointDelete st id o ho] at hT
    by_cases h : id' = id
    · subst h
      rw [updFn_self] at he'
      exact absurd he' (by simp)
    · rw [updFn_ne _ _ _ h] at he'
      exact ⟨id', e', h, he', hT, hip⟩
  · rintro ⟨id', e', h, he', hT, hip⟩
    refine ⟨id', e', ?_, ?_, hip⟩
    · rw [endpoints_onEndpointDelete st id o ho, updFn_ne _ _ _ h]
      exact he'
    · rwa [profTags_onEndpointDelete st id o ho]

/-- An endpoint deletion preserves the manager invariant. -/
theorem mgrInv_onEndpointDelete {M : List (String × TagEndpoint)}
    (hgood : GoodMentions M) (st : IpsetMgrState) (id : String)
    (hinv : MgrInv M st) : MgrInv M (onEndpointUpdate st id none) := by
  obtain ⟨hstored, hidxT, hidxP, hlive⟩ := hinv
  rcases ho : st.endpointsByEpId id with _ | o
  · rw [onEndpointDelete_unknown st id ho]
    exact ⟨hstored, hidxT, hidxP, hlive⟩
  have hpne : o.profile_id ≠ "" := (hstored id o ho).2
  constructor
  · -- StoredOk
    intro id' e' he'
    rw [endpoints_onEndpointDelete st id o ho] at he'
    by_cases h : id' = id
    · subst h
      rw [updFn_self] at he'
      exact absurd he' (by simp)
    · rw [updFn_ne _ _ _ h] at he'
      exact hstored id' e' he'
  · -- IdxTagOk
    intro T id'
    rw [idxTag_onEndpointDelete st id o ho hpne,
      endpoints_onEndpointDelete st id o ho]
    have hpq : ∀ q, profTags (onEndpointUpdate st id none) q = profTags st q :=
      profTags_onEndpointDelete st id o ho
    by_cases hc : T ∈ (profTags st o.profile_id).toFinset
    · rw [if_pos hc]
      by_cases h : id' = id
      · subst h
        simp only [Finset.mem_erase, ne_eq, not_true_eq_false, false_and,
          false_iff, not_exists, not_and]
        intro e' he'
        rw [updFn_self] at he'
        exact absurd he' (by simp)
      · rw [Finset.mem_erase]
        constructor
        · rintro ⟨_, hmem⟩
          obtain ⟨e', he', hT⟩ := (hidxT T id').mp hmem
          refine ⟨e', ?_, ?_⟩
          · rw [updFn_ne _ _ _ h]
            exact he'
          · rw [hpq]
            exact hT
        · rintro ⟨e', he', hT⟩
          rw [updFn_ne _ _ _ h] at he'
          rw [hpq] at hT
          exact ⟨h, (hidxT T id').mpr ⟨e', he', hT⟩⟩
    · rw [if_neg hc]
      by_cases h : id' = id
      · subst h
        constructor
        · intro hmem
          obtain ⟨e', he', hT⟩ := (hidxT T id').mp hmem
          rw [ho] at he'
          have he : e' = o := (Option.some.inj he').symm
          subst he
          exact absurd (List.mem_toFinset.mpr hT) hc
        · rintro ⟨e', he', _⟩
          rw [updFn_self] at he'
          exact absurd he' (by simp)
      · constructor
        · intro hmem
          obtain ⟨e', he', hT⟩ := (hidxT T id').mp hmem
          refine ⟨e', ?_, ?_⟩
          · rw [updFn_ne _ _ _ h]
            exact he'
          · rw [hpq]
            exact hT
        · rintro ⟨e', he', hT⟩
          rw [updFn_ne _ _ _ h] at he'
          rw [hpq] at hT
          exact (hidxT T id').mpr ⟨e', he', hT⟩
  · -- IdxProfOk
    intro q id'
    rw [idxProf_onEndpointDelete st id o ho,
      endpoints_onEndpointDelete st id o ho]
    by_cases hq : q = o.profile_id
    · subst hq
      rw [updFn_self]
      by_cases h : id' = id
      · subst h
        simp only [Finset.mem_erase, ne_eq, not_true_eq_false, false_and,
          false_iff, not_exists, not_and]
        intro e' he'
        rw [updFn_self] at he'
        exact absurd he' (by simp)
      · rw [Finset.mem_erase]
        constructor
        · rintro ⟨_, hmem⟩
          obtain ⟨e', he', hpe⟩ := (hidxP _ id').mp hmem
          exact ⟨e', by rw [updFn_ne _ _ _ h]; exact he', hpe⟩
        · rintro ⟨e', he', hpe⟩
          rw [updFn_ne _ _ _ h] at he'
          exact ⟨h, (hidxP _ id').mpr ⟨e', he', hpe⟩⟩
    · rw [updFn_ne _ _ _ (fun hc => hq hc)]
      by_cases h : id' = id
      · subst h
        constructor
        · intro hmem
          obtain ⟨e', he', hpe⟩ := (hidxP q id').mp hmem
          rw [ho] at he'
          have he : e' = o := (Option.some.inj he').symm
          subst he
          exact absurd hpe (fun hc => hq hc.symm)
        · rintro ⟨e', he', _⟩
          rw [updFn_self] at he'
          exact absurd he' (by simp)
      · constructor
        · intro hmem
          obtain ⟨e', he', hpe⟩ := (hidxP q id').mp hmem
          exact ⟨e', by rw [updFn_ne _ _ _ h]; exact he', hpe⟩
        · rintro ⟨e', he', hpe⟩
          rw [updFn_ne _ _ _ h] at he'
          exact (hidxP q id').mpr ⟨e', he', hpe⟩
  · -- LiveOk
    intro T m' hm' ip
    rw [live_onEndpointDelete st id o ho hpne] at hm'
    rw [semMember_onEndpointDelete st id o ho]
    by_cases hc : T ∈ (profTags st o.profile_id).toFinset
    · rw [if_pos hc] at hm'
      obtain ⟨m, hm, hmap⟩ := Option.map_eq_some'.mp hm'
      subst hmap
      rw [Finset.mem_sdiff, hlive T m hm ip, semMember_split_id ho T ip]
      constructor
      · rintro ⟨⟨_, hip⟩ | hothers, hno⟩
        · exact absurd hip hno
        · exact hothers
      · intro hothers
        exact ⟨Or.inr hothers,
          othersContrib_not_mem hgood hstored ho hothers⟩
    · rw [if_neg hc] at hm'
      rw [hlive T m' hm' ip, semMember_split_id ho T ip]
      constructor
      · rintro (⟨hT, _⟩ | hothers)
        · exact absurd (List.mem_toFinset.mpr hT) hc
        · exact hothers
      · exact Or.inr

/-- With no stored endpoint at `id`, all contributions are others'. -/
theorem semMember_eq_others_of_none {st : IpsetMgrState} {id : String}
    (ho : st.endpointsByEpId id = none) (T ip : String) :
    semMember st T ip ↔ OthersContrib st id T ip := by
  constructor
  · rintro ⟨id', e', he', hT, hip⟩
    refine ⟨id', e', ?_, he', hT, hip⟩
    intro h
    subst h
    rw [ho] at he'
    exact absurd he' (by simp)
  · rintro ⟨id', e', _, he', hT, hip⟩
    exact ⟨id', e', he', hT, hip⟩

theorem endpoints_onEndpointSome (st : IpsetMgrState) (id : String)
    (n : TagEndpoint) :
    (onEndpointUpdate st id (some n)).endpointsByEpId =
      updFn st.endpointsByEpId id (some n) := by
  rcases ho : st.endpointsByEpId id with _ | o <;>
    simp only [onEndpointUpdate, ho] <;> try split_ifs <;> rfl

theorem profTags_onEndpointSome (st : IpsetMgrState) (id : String)
    (n : TagEndpoint) (q : String) :
    profTags (onEndpointUpdate st id (some n)) q = profTags st q := by
  rcases ho : st.endpointsByEpId id with _ | o <;>
    simp only [onEndpointUpdate, ho, profTags] <;> try split_ifs <;> rfl

/-- The semantic membership after storing `n` at `id`. -/
theorem semMember_onEndpointSome (st : IpsetMgrState) (id : String)
    (n : TagEndpoint) (T ip : String) :
    semMember (onEndpointUpdate st id (some n)) T ip ↔
      (T ∈ profTags st n.profile_id ∧ ip ∈ n.ips) ∨
      OthersContrib st id T ip := by
  constructor
  · rintro ⟨id', e', he', hT, hip⟩
    rw [endpoints_onEndpointSome] at he'
    rw [profTags_onEndpointSome] at hT
    by_cases h : id' = id
    · subst h
      rw [updFn_self] at he'
      have he : e' = n := (Option.some.inj he').symm
      subst he
      exact Or.inl ⟨hT, hip⟩
    · rw [updFn_ne _ _ _ h] at he'
      exact Or.inr ⟨id', e', h, he', hT, hip⟩
  · rintro (⟨hT, hip⟩ | ⟨id', e', h, he', hT, hip⟩)
    · refine ⟨id, n, ?_, ?_, hip⟩
      · rw [endpoints_onEndpointSome, updFn_self]
      · rwa [profTags_onEndpointSome]
    · refine ⟨id', e', ?_, ?_, hip⟩
      · rw [endpoints_onEndpointSome, updFn_ne _ _ _ h]
        exact he'
      · rwa [profTags_onEndpointSome]

theorem idxTag_onEndpointSome_none (st : IpsetMgrState) (id : String)
    (n : TagEndpoint) (ho : st.endpointsByEpId id = none) (T : String) :
    (onEndpointUpdate st id (some n)).endpointIdsByTag T =
      if T ∈ (profTags st n.profile_id).toFinset then
        insert id (st.endpointIdsByTag T)
      else st.endpointIdsByTag T := by
  simp only [onEndpointUpdate, ho]
  by_cases hT : T ∈ (profTags st n.profile_id).toFinset <;>
    simp [hT, Finset.not_mem_empty]

theorem live_onEndpointSome_none (st : IpsetMgrState) (id : String)
    (n : TagEndpoint) (ho : st.endpointsByEpId id = none) (T : String) :
    (onEndpointUpdate st id (some n)).live T =
      if T ∈ (profTags st n.profile_id).toFinset then
        (st.live T).map (fun m => m ∪ n.ips)
      else st.live T := by
  simp only [onEndpointUpdate, ho]
  by_cases hT : T ∈ (profTags st n.profile_id).toFinset <;>
    simp [hT, Finset.not_mem_empty]

theorem idxProf_onEndpointSome_none (st : IpsetMgrState) (id : String)
    (n : TagEndpoint) (ho : st.endpointsByEpId id = none) :
    (onEndpointUpdate st id (some n)).endpointIdsByProfileId =
      updFn st.endpointIdsByProfileId n.profile_id
        (insert id (st.endpointIdsByProfileId n.profile_id)) := by
  simp only [onEndpointUpdate, ho]

theorem idxTag_onEndpointSome_some (st : IpsetMgrState) (id : String)
    (n o : TagEndpoint) (ho : st.endpointsByEpId id = some o)
    (hpne : o.profile_id ≠ "") (T : String) :
    (onEndpointUpdate st id (some n)).endpointIdsByTag T =
      if T ∈ (profTags st n.profile_id).toFinset then
        insert id (st.endpointIdsByTag T)
      else if T ∈ (profTags st o.profile_id).toFinset then
        (st.endpointIdsByTag T).erase id
      else st.endpointIdsByTag T := by
  simp only [onEndpointUpdate, ho, hpne, ne_eq, not_false_eq_true, if_true]
  by_cases hop : o.profile_id = n.profile_id <;>
    by_cases hn : T ∈ profTags st n.profile_id <;>
    by_cases hoT : T ∈ profTags st o.profile_id <;>
    simp [hop, hn, hoT, List.mem_toFinset]

theorem live_onEndpointSome_some (st : IpsetMgrState) (id : String)
    (n o : TagEndpoint) (ho : st.endpointsByEpId id = some o)
    (hpne : o.profile_id ≠ "") (T : String) :
    (onEndpointUpdate st id (some n)).live T =
      if T ∈ (profTags st n.profile_id).toFinset then
        (if T ∈ (profTags st o.profile_id).toFinset then
          (st.live T).map (fun m => (m \ (o.ips \ n.ips)) ∪ n.ips)
         else (st.live T).map (fun m => m ∪ n.ips))
      else if T ∈ (profTags st o.profile_id).toFinset then
        (st.live T).map (fun m => (m \ (o.ips \ n.ips)) \ o.ips)
      else st.live T := by
  simp only [onEndpointUpdate, ho, hpne, ne_eq, not_false_eq_true, if_true]
  by_cases hop : o.profile_id = n.profile_id <;>
    by_cases hn : T ∈ profTags st n.profile_id <;>
    by_cases hoT : T ∈ profTags st o.profile_id <;>
    simp [hop, hn, hoT, List.mem_toFinset, Option.map_map] <;> rfl

theorem idxProf_onEndpointSome_some (st : IpsetMgrState) (id : String)
    (n o : TagEndpoint) (ho : st.endpointsByEpId id = some o)
    (hpne : o.profile_id ≠ "") (q : String) :
    (onEndpointUpdate st id (some n)).endpointIdsByProfileId q =
      if q = n.profile_id then
        insert id (st.endpointIdsByProfileId n.profile_id)
      else if q = o.profile_id ∧ o.profile_id ≠ n.profile_id then
        (st.endpointIdsByProfileId q).erase id
      else st.endpointIdsByProfileId q := by
  simp only [onEndpointUpdate, ho, hpne, ne_eq, not_false_eq_true, true_and]
  by_cases hop : o.profile_id = n.profile_id
  · simp only [hop, ne_eq, not_true_eq_false, if_false, and_false]
    by_cases hq : q = n.profile_id <;>
      simp [hq, updFn, hop]
  · simp only [hop, ne_eq, not_false_eq_true, if_true, and_true]
    by_cases hq : q = n.profile_id
    · subst hq
      simp [updFn_self, updFn_ne _ _ _ (fun hc => hop hc.symm)]
    · by_cases hq2 : q = o.profile_id
      · have hop2 : ¬(n.profile_id = o.profile_id) := fun hc => hop hc.symm
        simp [updFn, hq, hq2, hop, hop2]
      · simp [updFn, hq, hq2, hop]

theorem exists_upd_self {Q : TagEndpoint → Prop} (st : IpsetMgrState)
    (id : String) (n : TagEndpoint) :
    (∃ e, updFn st.endpointsByEpId id (some n) id = some e ∧ Q e) ↔ Q n := by
  constructor
  · rintro ⟨e, he, hQ⟩
    rw [updFn_self] at he
    have h : e = n := (Option.some.inj he).symm
    subst h
    exact hQ
  · intro hQ
    exact ⟨n, by rw [updFn_self], hQ⟩

theorem exists_upd_ne {Q : TagEndpoint → Prop} (st : IpsetMgrState)
    (id : String) (n : TagEndpoint) {id' : String} (h : id' ≠ id) :
    (∃ e, updFn st.endpointsByEpId id (some n) id' = some e ∧ Q e) ↔
    (∃ e, st.endpointsByEpId id' = some e ∧ Q e) := by
  constructor <;> rintro ⟨e, he, hQ⟩
  · rw [updFn_ne _ _ _ h] at he
    exact ⟨e, he, hQ⟩
  · exact ⟨e, by rw [updFn_ne _ _ _ h]; exact he, hQ⟩

/-- An endpoint creation/modification preserves the manager invariant. -/
theorem mgrInv_onEndpointSome {M : List (String × TagEndpoint)}
    (hgood : GoodMentions M) (st : IpsetMgrState) (id : String)
    (n : TagEndpoint) (hmemM : (id, n) ∈ M) (hinv : MgrInv M st) :
    MgrInv M (onEndpointUpdate st id (some n)) := by
  obtain ⟨hstored, hidxT, hidxP, hlive⟩ := hinv
  have hnpne : n.profile_id ≠ "" := hgood.1 (id, n) hmemM
  have hStored' : StoredOk M (onEndpointUpdate st id (some n)) := by
    intro id' e' he'
    rw [endpoints_onEndpointSome] at he'
    by_cases h : id' = id
    · subst h
      rw [updFn_self] at he'
      have he : e' = n := (Option.some.inj he').symm
      subst he
      exact ⟨hmemM, hnpne⟩
    · rw [updFn_ne _ _ _ h] at he'
      exact hstored id' e' he'
  rcases ho : st.endpointsByEpId id with _ | o
  · -- previously unknown endpoint
    refine ⟨hStored', ?_, ?_, ?_⟩
    · -- IdxTagOk
      intro T id'
      rw [idxTag_onEndpointSome_none st id n ho]
      simp only [endpoints_onEndpointSome, profTags_onEndpointSome]
      by_cases h : id' = id
      · subst h
        by_cases hn : T ∈ (profTags st n.profile_id).toFinset
        · rw [if_pos hn, exists_upd_self]
          exact iff_of_true (Finset.mem_insert_self _ _)
            (List.mem_toFinset.mp hn)
        · rw [if_neg hn, exists_upd_self]
          constructor
          · intro hmem
            obtain ⟨e, he, _⟩ := (hidxT T id').mp hmem
            rw [ho] at he
            exact absurd he (by simp)
          · intro hT
            exact absurd (List.mem_toFinset.mpr hT) hn
      · by_cases hn : T ∈ (profTags st n.profile_id).toFinset
        · rw [if_pos hn, exists_upd_ne st id n h, Finset.mem_insert,
            ← hidxT T id']
          simp [h]
        · rw [if_neg hn, exists_upd_ne st id n h, ← hidxT T id']
    · -- IdxProfOk
      intro q id'
      rw [idxProf_onEndpointSome_none st id n ho]
      simp only [endpoints_onEndpointSome]
      by_cases hq : q = n.profile_id
      · subst hq
        rw [updFn_self]
        by_cases h : id' = id
        · subst h
          rw [exists_upd_self]
          exact iff_of_true (Finset.mem_insert_self _ _) rfl
        · rw [exists_upd_ne st id n h, Finset.mem_insert, ← hidxP _ id']
          simp [h]
      · rw [updFn_ne _ _ _ hq]
        by_cases h : id' = id
        · subst h
          rw [exists_upd_self]
          constructor
          · intro hmem
            obtain ⟨e, he, _⟩ := (hidxP q id').mp hmem
            rw [ho] at he
            exact absurd he (by simp)
          · intro hp
            exact absurd hp.symm hq
        · rw [exists_upd_ne st id n h, ← hidxP q id']
    · -- LiveOk
      intro T m' hm' ip
      rw [live_onEndpointSome_none st id n ho] at hm'
      rw [semMember_onEndpointSome]
      by_cases hn : T ∈ (profTags st n.profile_id).toFinset
      · rw [if_pos hn] at hm'
        obtain ⟨m, hm, hmap⟩ := Option.map_eq_some'.mp hm'
        subst hmap
        rw [Finset.mem_union, hlive T m hm ip,
          semMember_eq_others_of_none ho]
        have hT : T ∈ profTags st n.profile_id := List.mem_toFinset.mp hn
        constructor
        · rintro (hothers | hip)
          · exact Or.inr hothers
          · exact Or.inl ⟨hT, hip⟩
        · rintro (⟨_, hip⟩ | hothers)
          · exact Or.inr hip
          · exact Or.inl hothers
      · rw [if_neg hn] at hm'
        rw [hlive T m' hm' ip, semMember_eq_others_of_none ho]
        constructor
        · exact Or.inr
        · rintro (⟨hT, _⟩ | hothers)
          · exact absurd (List.mem_toFinset.mpr hT) hn
          · exact hothers
  · -- updating a stored endpoint o
    have hpne : o.profile_id ≠ "" := (hstored id o ho).2
    refine ⟨hStored', ?_, ?_, ?_⟩
    · -- IdxTagOk
      intro T id'
      rw [idxTag_onEndpointSome_some st id n o ho hpne]
      simp only [endpoints_onEndpointSome, profTags_onEndpointSome]
      by_cases hn : T ∈ (profTags st n.profile_id).toFinset
      · rw [if_pos hn]
        by_cases h : id' = id
        · subst h
          rw [exists_upd_self]
          exact iff_of_true (Finset.mem_insert_self _ _)
            (List.mem_toFinset.mp hn)
        · rw [exists_upd_ne st id n h, Finset.mem_insert, ← hidxT T id']
          simp [h]
      · rw [if_neg hn]
        by_cases hoT : T ∈ (profTags st o.profile_id).toFinset
        · rw [if_pos hoT]
          by_cases h : id' = id
          · subst h
            rw [exists_upd_self]
            exact iff_of_false (Finset.not_mem_erase _ _)
              (fun hT => hn (List.mem_toFinset.mpr hT))
          · rw [exists_upd_ne st id n h, Finset.mem_erase, ← hidxT T id']
            simp [h]
        · rw [if_neg hoT]
          by_cases h : id' = id
          · subst h
            rw [exists_upd_self]
            constructor
            · intro hmem
              obtain ⟨e, he, hT⟩ := (hidxT T id').mp hmem
              rw [ho] at he
              have he2 : e = o := (Option.some.inj he).symm
              subst he2
              exact absurd (List.mem_toFinset.mpr hT) hoT
            · intro hT
              exact absurd (List.mem_toFinset.mpr hT) hn
          · rw [exists_upd_ne st id n h, ← hidxT T id']
    · -- IdxProfOk
      intro q id'
      rw [idxProf_onEndpointSome_some st id n o ho hpne]
      simp only [endpoints_onEndpointSome]
      by_cases hq : q = n.profile_id
      · rw [if_pos hq]
        subst hq
        by_cases h : id' = id
        · subst h
          rw [exists_upd_self]
          exact iff_of_true (Finset.mem_insert_self _ _) rfl
        · rw [exists_upd_ne st id n h, Finset.mem_insert, ← hidxP _ id']
          simp [h]
      · rw [if_neg hq]
        by_cases hc : q = o.profile_id ∧ o.profile_id ≠ n.profile_id
        · rw [if_pos hc]
          by_cases h : id' = id
          · subst h
            rw [exists_upd_self]
            exact iff_of_false (Finset.not_mem_erase _ _)
              (fun hp => hq hp.symm)
          · rw [exists_upd_ne st id n h, Finset.mem_erase, ← hidxP q id']
            simp [h]
        · rw [if_neg hc]
          by_cases h : id' = id
          · subst h
            rw [exists_upd_self]
            constructor
            · intro hmem
              obtain ⟨e, he, hp⟩ := (hidxP q id').mp hmem
              rw [ho] at he
              have he2 : e = o := (Option.some.inj he).symm
              rw [he2] at hp
              by_cases hon : o.profile_id = n.profile_id
              · exact absurd (hp ▸ hon) hq
              · exact absurd ⟨hp.symm, hon⟩ hc
            · intro hp
              exact absurd hp.symm hq
          · rw [exists_upd_ne st id n h, ← hidxP q id']
    · -- LiveOk
      intro T m' hm' ip
      rw [live_onEndpointSome_some st id n o ho hpne] at hm'
      rw [semMember_onEndpointSome]
      by_cases hn : T ∈ (profTags st n.profile_id).toFinset
      · rw [if_pos hn] at hm'
        have hTn : T ∈ profTags st n.profile_id := List.mem_toFinset.mp hn
        by_cases hoT : T ∈ (profTags st o.profile_id).toFinset
        · rw [if_pos hoT] at hm'
          obtain ⟨m, hm, hmap⟩ := Option.map_eq_some'.mp hm'
          subst hmap
          rw [Finset.mem_union, Finset.mem_sdiff, hlive T m hm ip,
            semMember_split_id ho T ip]
          constructor
          · rintro (⟨hmem, hnd⟩ | hip)
            · rw [Finset.mem_sdiff] at hnd
              by_cases hipn : ip ∈ n.ips
              · exact Or.inl ⟨hTn, hipn⟩
              · have hipo : ip ∉ o.ips := fun hc => hnd ⟨hc, hipn⟩
                rcases hmem with ⟨_, hip2⟩ | hothers
                · exact absurd hip2 hipo
                · exact Or.inr hothers
            · exact Or.inl ⟨hTn, hip⟩
          · rintro (⟨_, hip⟩ | hothers)
            · exact Or.inr hip
            · refine Or.inl ⟨Or.inr hothers, ?_⟩
              rw [Finset.mem_sdiff]
              rintro ⟨hipo, _⟩
              exact othersContrib_not_mem hgood hstored ho hothers hipo
        · rw [if_neg hoT] at hm'
          obtain ⟨m, hm, hmap⟩ := Option.map_eq_some'.mp hm'
          subst hmap
          rw [Finset.mem_union, hlive T m hm ip, semMember_split_id ho T ip]
          constructor
          · rintro ((⟨hT2, _⟩ | hothers) | hip)
            · exact absurd (List.mem_toFinset.mpr hT2) hoT
            · exact Or.inr hothers
            · exact Or.inl ⟨hTn, hip⟩
          · rintro (⟨_, hip⟩ | hothers)
            · exact Or.inr hip
            · exact Or.inl (Or.inr hothers)
      · rw [if_neg hn] at hm'
        have hTn : T ∉ profTags st n.profile_id :=
          fun hc => hn (List.mem_toFinset.mpr hc)
        by_cases hoT : T ∈ (profTags st o.profile_id).toFinset
        · rw [if_pos hoT] at hm'
          obtain ⟨m, hm, hmap⟩ := Option.map_eq_some'.mp hm'
          subst hmap
          rw [Finset.mem_sdiff, Finset.mem_sdiff, hlive T m hm ip,
            semMember_split_id ho T ip]
          constructor
          · rintro ⟨⟨hmem, _⟩, hipo⟩
            rcases hmem with ⟨_, hip2⟩ | hothers
            · exact absurd hip2 hipo
            · exact Or.inr hothers
          · rintro (⟨hT2, _⟩ | hothers)
            · exact absurd hT2 hTn
            · have hipo : ip ∉ o.ips :=
                othersContrib_not_mem hgood hstored ho hothers
              refine ⟨⟨Or.inr hothers, ?_⟩, hipo⟩
              rw [Finset.mem_sdiff]
              rintro ⟨hc, _⟩
              exact hipo hc
        · rw [if_neg hoT] at hm'
          rw [hlive T m' hm' ip, semMember_split_id ho T ip]
          constructor
          · rintro (⟨hT2, _⟩ | hothers)
            · exact absurd (List.mem_toFinset.mpr hT2) hoT
            · exact Or.inr hothers
          · rintro (⟨hT2, _⟩ | hothers)
            · exact absurd hT2 hTn
            · exact Or.inr hothers

theorem semMember_createIpsetActor (st : IpsetMgrState) (tag T ip : String) :
    semMember (createIpsetActor st tag) T ip ↔ semMember st T ip := Iff.rfl

theorem semMember_removeIpsetActor (st : IpsetMgrState) (tag T ip : String) :
    semMember (removeIpsetActor st tag) T ip ↔ semMember st T ip := Iff.rfl

/-- Creating (and seeding) an ipset child preserves the invariant. -/
theorem mgrInv_createIpsetActor {M : List (String × TagEndpoint)}
    (st : IpsetMgrState) (tag : String) (hinv : MgrInv M st) :
    MgrInv M (createIpsetActor st tag) := by
  obtain ⟨hstored, hidxT, hidxP, hlive⟩ := hinv
  refine ⟨hstored, hidxT, hidxP, ?_⟩
  intro T m hm ip
  rw [semMember_createIpsetActor]
  by_cases h : T = tag
  · subst h
    rw [show (createIpsetActor st T).live T =
        some ((st.endpointIdsByTag T).biUnion (fun ep_id => epIdIps st ep_id))
      from updFn_self _ _ _] at hm
    have hmeq := Option.some.inj hm
    subst hmeq
    constructor
    · intro hip
      obtain ⟨id, hid, hip2⟩ := Finset.mem_biUnion.mp hip
      obtain ⟨e, he, hT⟩ := (hidxT T id).mp hid
      exact ⟨id, e, he, hT, by rwa [epIdIps_stored he] at hip2⟩
    · rintro ⟨id, e, he, hT, hip⟩
      exact Finset.mem_biUnion.mpr
        ⟨id, (hidxT T id).mpr ⟨e, he, hT⟩, by rwa [epIdIps_stored he]⟩
  · rw [show (createIpsetActor st tag).live T = st.live T
      from updFn_ne _ _ _ h] at hm
    exact hlive T m hm ip


/-- Removing an ipset child preserves the invariant. -/
theorem mgrInv_removeIpsetActor {M : List (String × TagEndpoint)}
    (st : IpsetMgrState) (tag : String) (hinv : MgrInv M st) :
    MgrInv M (removeIpsetActor st tag) := by
  obtain ⟨hstored, hidxT, hidxP, hlive⟩ := hinv
  refine ⟨hstored, hidxT, hidxP, ?_⟩
  intro T m hm ip
  rw [semMember_removeIpsetActor]
  by_cases h : T = tag
  · subst h
    rw [show (removeIpsetActor st T).live T = none from updFn_self _ _ _] at hm
    exact absurd hm (by simp)
  · rw [show (removeIpsetActor st tag).live T = st.live T
      from updFn_ne _ _ _ h] at hm
    exact hlive T m hm ip

theorem mgrInv_foldTags {M : List (String × TagEndpoint)}
    (hgood : GoodMentions M) (l : List (String × List String))
    (st : IpsetMgrState) (hinv : MgrInv M st) :
    MgrInv M (l.foldl (fun s pr => onTagsUpdate s pr.1 (some pr.2)) st) := by
  induction l generalizing st with
  | nil => exact hinv
  | cons p rest ih =>
    exact ih _ (mgrInv_onTagsUpdate hgood st p.1 (some p.2) hinv)

theorem mgrInv_foldTagsNone {M : List (String × TagEndpoint)}
    (hgood : GoodMentions M) (l : List String) (st : IpsetMgrState)
    (hinv : MgrInv M st) :
    MgrInv M (l.foldl (fun s p => onTagsUpdate s p none) st) := by
  induction l generalizing st with
  | nil => exact hinv
  | cons p rest ih => exact ih _ (mgrInv_onTagsUpdate hgood st p none hinv)

theorem mgrInv_foldEps {M : List (String × TagEndpoint)}
    (hgood : GoodMentions M) (l : List (String × TagEndpoint))
    (hsub : ∀ pr ∈ l, pr ∈ M) (st : IpsetMgrState) (hinv : MgrInv M st) :
    MgrInv M (l.foldl (fun s pr => onEndpointUpdate s pr.1 (some pr.2)) st) := by
  induction l generalizing st with
  | nil => exact hinv
  | cons p rest ih =>
    exact ih (fun pr hpr => hsub pr (List.mem_cons_of_mem _ hpr)) _
      (mgrInv_onEndpointSome hgood st p.1 p.2
        (by simpa using hsub p (List.mem_cons_self _ _)) hinv)

theorem mgrInv_foldEpsNone {M : List (String × TagEndpoint)}
    (hgood : GoodMentions M) (l : List String) (st : IpsetMgrState)
    (hinv : MgrInv M st) :
    MgrInv M (l.foldl (fun s id => onEndpointUpdate s id none) st) := by
  induction l generalizing st with
  | nil => exact hinv
  | cons p rest ih => exact ih _ (mgrInv_onEndpointDelete hgood st p hinv)

/-- `apply_snapshot` preserves the invariant. -/
theorem mgrInv_applySnapshot {M : List (String × TagEndpoint)}
    (hgood : GoodMentions M) (tags_by_prof_id : List (String × List String))
    (endpoints_by_id : List (String × TagEndpoint))
    (hsub : ∀ pr ∈ endpoints_by_id, pr ∈ M) (st : IpsetMgrState)
    (hinv : MgrInv M st) :
    MgrInv M (mgrApplySnapshot st tags_by_prof_id endpoints_by_id) := by
  unfold mgrApplySnapshot
  exact mgrInv_foldEpsNone hgood _ _
    (mgrInv_foldEps hgood _ hsub _
      (mgrInv_foldTagsNone hgood _ _
        (mgrInv_foldTags hgood _ _ hinv)))

/-- One manager message preserves the invariant. -/
theorem mgrInv_mgrStep {M : List (String × TagEndpoint)}
    (hgood : GoodMentions M) (st : IpsetMgrState) (msg : IpsetMgrMsg)
    (hsub : ∀ pr ∈ msgEndpoints msg, pr ∈ M) (hinv : MgrInv M st) :
    MgrInv M (mgrStep st msg) := by
  cases msg with
  | tagsUpdate p tags => exact mgrInv_onTagsUpdate hgood st p tags hinv
  | endpointUpdate id ep =>
    cases ep with
    | none => exact mgrInv_onEndpointDelete hgood st id hinv
    | some n =>
      exact mgrInv_onEndpointSome hgood st id n
        (hsub (id, n) (by simp [msgEndpoints])) hinv
  | snapshot tags eps =>
    exact mgrInv_applySnapshot hgood tags eps
      (fun pr hpr => hsub pr (by simpa [msgEndpoints] using hpr)) st hinv
  | createIpset tag => exact mgrInv_createIpsetActor st tag hinv
  | removeIpset tag => exact mgrInv_removeIpsetActor st tag hinv

/-- A whole message run preserves the invariant. -/
theorem mgrInv_mgrRun {M : List (String × TagEndpoint)}
    (hgood : GoodMentions M) (msgs : List IpsetMgrMsg)
    (hsub : ∀ msg ∈ msgs, ∀ pr ∈ msgEndpoints msg, pr ∈ M)
    (st : IpsetMgrState) (hinv : MgrInv M st) :
    MgrInv M (mgrRun st msgs) := by
  induction msgs generalizing st with
  | nil => exact hinv
  | cons m rest ih =>
    exact ih (fun msg hm => hsub msg (List.mem_cons_of_mem _ hm)) _
      (mgrInv_mgrStep hgood st m (hsub m (List.mem_cons_self _ _)) hinv)

/-- The fresh manager satisfies the invariant. -/
theorem mgrInv_init (M : List (String × TagEndpoint)) :
    MgrInv M initIpsetMgr := by
  refine ⟨?_, ?_, ?_, ?_⟩
  · intro id e he
    exact absurd he (by simp [initIpsetMgr])
  · intro T id
    simp [initIpsetMgr]
  · intro p id
    simp [initIpsetMgr]
  · intro T m hm
    exact absurd hm (by simp [initIpsetMgr])

/-- A message's endpoint pairs are among the sequence's mentions. -/
theorem msgEndpoints_subset_epMentions {msgs : List IpsetMgrMsg}
    {msg : IpsetMgrMsg} (hm : msg ∈ msgs) {pr : String × TagEndpoint}
    (hpr : pr ∈ msgEndpoints msg) : pr ∈ epMentions msgs := by
  induction msgs with
  | nil => cases hm
  | cons m rest ih =>
    rcases List.mem_cons.mp hm with h | h
    · subst h
      exact List.mem_append.mpr (Or.inl hpr)
    · exact List.mem_append.mpr (Or.inr (ih h))

/-- C1 (amended): after any sequence of `on_tags_update`,
`on_endpoint_update` and `apply_snapshot` messages (together with ipset
child creations and removals) has been processed to quiescence — provided
every endpoint mentioned carries a non-empty profile id and no two
distinct endpoints ever share an IP address — every tag with a
starting-or-live ipset actor has intended membership equal to the union,
over every endpoint whose current profile's tag list contains the tag, of
that endpoint's IPs. -/
theorem ipset_manager_membership (msgs : List IpsetMgrMsg)
    (hgood : GoodMentions (epMentions msgs)) :
    ∀ T m, (mgrRun initIpsetMgr msgs).live T = some m →
      ∀ ip, ip ∈ m ↔ semMember (mgrRun initIpsetMgr msgs) T ip :=
  (mgrInv_mgrRun hgood msgs
    (fun _ hm _ hpr => msgEndpoints_subset_epMentions hm hpr)
    initIpsetMgr (mgrInv_init _)).liveOk

/-- C1 counterexample: two endpoints with the same IP reach tag "T"
through two different profiles; dropping the tag from one profile leaves
the tag's live actor with no members, while endpoint "e2" still carries
the tag and the IP — so the intended membership is not the semantic
union. -/
theorem shared_ip_breaks_membership :
    (mgrRun initIpsetMgr sharedIpMsgs).live "T" = some ∅ ∧
    semMember (mgrRun initIpsetMgr sharedIpMsgs) "T" "10.0.0.1" ∧
    ("10.0.0.1" ∉ (∅ : Finset String)) := by
  refine ⟨by decide, ?_, by decide⟩
  exact ⟨"e2", { profile_id := "q", nets := ["10.0.0.1"] },
    by decide, by decide, by decide⟩

/-- Witness for `ipset_manager_membership` on the seed scenario. -/
theorem ipset_manager_membership_witness :
    GoodMentions (epMentions seedMsgs) ∧
    ("10.0.0.1" ∈ ({"10.0.0.1"} : Finset String) ↔
      semMember (mgrRun initIpsetMgr seedMsgs) "T" "10.0.0.1") :=
  ⟨⟨by decide, by decide⟩,
   ipset_manager_membership seedMsgs ⟨by decide, by decide⟩ "T"
     {"10.0.0.1"} (by decide) "10.0.0.1"⟩

end Calico
